import Mathlib

/-!
Verification of the court-rotation core of `pickle_on.py`.

The program's core is two functions, `assign_players_to_courts` and
`rotate_players`, operating on mutable `Player` objects.  Python `Player`
objects compare and hash by `name` alone, so the mutable heap is modelled as a
total map `Store` from names to player records, and every Python list of player
objects is modelled as a list of names.  Python `set` fields of players are
`Finset String`.  `random.shuffle` and the `random.random()` sort tiebreaks are
modelled by an explicit oracle `Rand`: each shuffle is an oracle function on
lists, and each randomized sort gets an oracle tiebreak key, so that every
outcome the Python program can produce corresponds to some oracle value.
Python's `sorted`/`list.sort` is stable sorting by a total preorder; the output
of a stable sort is uniquely determined, so it is modelled by the structurally
recursive stable insertion sort `pySort` below.
-/

/-- Insert `x` after every element `y` of the (sorted) list with `le y x`:
the insertion step of a stable insertion sort. -/
def sinsert (le : α → α → Bool) (x : α) : List α → List α
  | [] => [x]
  | y :: ys => if le y x then y :: sinsert le x ys else x :: y :: ys

/-- Stable sort by the total preorder `le`: the model of Python `sorted`. -/
def pySort (le : α → α → Bool) (l : List α) : List α :=
  l.foldl (fun acc x => sinsert le x acc) []

inductive Status where
  | available
  | playing
  | sitting_out
deriving DecidableEq, Repr

/-- The statistics fields of the Python `Player` class (`__init__`).  The
`name` is the map key of the `Store`, not stored again here. -/
structure Player where
  games_played : Nat := 0
  games_sat_out : Nat := 0
  current_status : Status := .available
  partners : Finset String := ∅
  played_consecutive_games : Nat := 0
deriving DecidableEq

/-- The heap of player objects, keyed by player name. -/
abbrev Store := String → Player

/-- `Player(name)`: all counters zero, status available, no partners. -/
def Player.fresh : Player := {}

/-- A heap where every player is freshly constructed. -/
def freshStore : Store := fun _ => Player.fresh

/-- In-place mutation of the player object named `p`. -/
def Store.modify (st : Store) (p : String) (f : Player → Player) : Store :=
  fun n => if n = p then f (st n) else st n

/-- A `for p in l:`-loop applying the same mutation to each listed player. -/
def Store.foldModify (f : Player → Player) (l : List String) (st : Store) : Store :=
  l.foldl (fun s p => Store.modify s p f) st

/-- Oracle for the random choices of one round: the two `random.shuffle`
calls and the `random.random()` tiebreak keys of the randomized sorts
(indexed by the court-loop iteration where they are drawn). -/
structure Oracle where
  shuffleRot : List String → List String
  sitTb : String → Nat
  shuffleAssign : List String → List String
  p1Tb : Nat → String → Nat
  p2Tb : Nat → String → Nat
  p4Tb : Nat → String → Nat

/-- A faithful oracle: `random.shuffle` permutes the list it is given. -/
def Oracle.WF (r : Oracle) : Prop :=
  (∀ l, (r.shuffleRot l).Perm l) ∧ (∀ l, (r.shuffleAssign l).Perm l)

/-- The trivial oracle: identity shuffles, all tiebreak keys zero. -/
def idRand : Oracle :=
  { shuffleRot := id, sitTb := fun _ => 0, shuffleAssign := id,
    p1Tb := fun _ _ => 0, p2Tb := fun _ _ => 0, p4Tb := fun _ _ => 0 }

/-- Lexicographic comparison of Python 2-tuples of numbers. -/
def lex2 (x y : Nat × Nat) : Bool :=
  decide (x.1 < y.1) || (decide (x.1 = y.1) && decide (x.2 ≤ y.2))

/-- Lexicographic comparison of Python 3-tuples of numbers. -/
def lex3 (x y : Nat × Nat × Nat) : Bool :=
  decide (x.1 < y.1) || (decide (x.1 = y.1) && lex2 x.2 y.2)

/-- Lexicographic comparison of the 4-tuple sit-out ranking keys. -/
def lex4 (x y : Int × Int × Nat × Nat) : Bool :=
  decide (x.1 < y.1) ||
    (decide (x.1 = y.1) &&
      (decide (x.2.1 < y.2.1) ||
        (decide (x.2.1 = y.2.1) &&
          (decide (x.2.2.1 < y.2.2.1) ||
            (decide (x.2.2.1 = y.2.2.1) && decide (x.2.2.2 ≤ y.2.2.2))))))

/-- Sort key `(len(p.partners), p.games_played, random.random())` of the
player-1 selection. -/
def p1Le (st : Store) (tb : String → Nat) (a b : String) : Bool :=
  lex3 ((st a).partners.card, (st a).games_played, tb a)
       ((st b).partners.card, (st b).games_played, tb b)

/-- Sort key `len(p.partners)` used for the non-partner choices and player 3. -/
def cardLe (st : Store) (a b : String) : Bool :=
  decide ((st a).partners.card ≤ (st b).partners.card)

/-- Sort key `(len(p.partners & set_of_anchor), random.random())` of the
repeat-partner fallback. -/
def repeatLe (st : Store) (anchor : String) (tb : String → Nat) (a b : String) : Bool :=
  lex2 (((st a).partners ∩ {anchor}).card, tb a)
       (((st b).partners ∩ {anchor}).card, tb b)

/-- Sit-out ranking key
`(-p.played_consecutive_games, -p.games_played, p.games_sat_out, random.random())`. -/
def sitKey (st : Store) (tb : String → Nat) (p : String) : Int × Int × Nat × Nat :=
  (-((st p).played_consecutive_games : Int), -((st p).games_played : Int),
   (st p).games_sat_out, tb p)

def sitLe (st : Store) (tb : String → Nat) (a b : String) : Bool :=
  lex4 (sitKey st tb a) (sitKey st tb b)

/-- Partner/status/consecutive-games bookkeeping performed when a court
`[p1, p2, p3, p4]` is successfully formed (source lines 183-190). -/
def applyCourt (p1 p2 p3 p4 : String) (st : Store) : Store :=
  let stA := st.modify p1 (fun q => { q with partners := insert p2 q.partners })
  let stB := stA.modify p2 (fun q => { q with partners := insert p1 q.partners })
  let stC := stB.modify p3 (fun q => { q with partners := insert p4 q.partners })
  let stD := stC.modify p4 (fun q => { q with partners := insert p3 q.partners })
  Store.foldModify
    (fun q => { q with current_status := .playing,
                       played_consecutive_games := q.played_consecutive_games + 1 })
    [p1, p2, p3, p4] stD

/-- Outcome of one iteration of the court-forming loop: `stop` for `break`,
`skip` for the `continue` branches (with the restored assigned-set; the store
is unchanged there), `court` for a successfully formed court. -/
inductive StepResult where
  | stop
  | skip (assigned : Finset String)
  | court (c : List String) (assigned : Finset String) (st : Store)

/-- The partner-selection of steps 2/4 of the pairing engine (source lines
130-144 and 162-177): prefer a non-partner of the anchor with fewest partners,
fall back to a previous partner with random tiebreak, fail on no candidate. -/
def pickPartner (st : Store) (anchor : String) (tb : String → Nat)
    (remaining : List String) : Option String :=
  match pySort (cardLe st)
      (remaining.filter (fun p => decide (p ∉ (st anchor).partners))) with
  | q :: _ => some q
  | [] =>
    match pySort (repeatLe st anchor tb)
        (remaining.filter (fun p => decide (p ∈ (st anchor).partners))) with
    | q :: _ => some q
    | [] => none

/-- One iteration of the `for _ in range(num_courts)` loop of
`assign_players_to_courts` (source lines 115-192). -/
def courtStep (rand : Oracle) (ce : List String) (ppc : Nat) (i : Nat)
    (assigned : Finset String) (st : Store) : StepResult :=
  if (ce.filter (fun p => decide (p ∉ assigned))).length < ppc then .stop
  else
    match pySort (p1Le st (rand.p1Tb i)) (ce.filter (fun p => decide (p ∉ assigned))) with
    | [] => .stop
    | p1 :: _ =>
      match pickPartner st p1 (rand.p2Tb i)
          ((ce.filter (fun p => decide (p ∉ assigned))).filter
            (fun p => decide (p ∉ insert p1 assigned))) with
      | none => .skip ((insert p1 assigned).erase p1)
      | some p2 =>
        match pySort (cardLe st)
            ((ce.filter (fun p => decide (p ∉ assigned))).filter
              (fun p => decide (p ∉ insert p2 (insert p1 assigned)))) with
        | [] => .skip (((insert p2 (insert p1 assigned)).erase p1).erase p2)
        | p3 :: _ =>
          match pickPartner st p3 (rand.p4Tb i)
              ((ce.filter (fun p => decide (p ∉ assigned))).filter
                (fun p => decide (p ∉ insert p3 (insert p2 (insert p1 assigned))))) with
          | none =>
            .skip ((((insert p3 (insert p2 (insert p1 assigned))).erase p1).erase p2).erase p3)
          | some p4 =>
            .court [p1, p2, p3, p4]
              (insert p4 (insert p3 (insert p2 (insert p1 assigned))))
              (applyCourt p1 p2 p3 p4 st)

/-- The court-forming loop, recursing on the remaining court count; `i` is the
iteration index used to address the oracle tiebreak draws. -/
def assignLoop (rand : Oracle) (ce : List String) (ppc : Nat) :
    Nat → Nat → Finset String → Store → List (List String) × Finset String × Store
  | _, 0, assigned, st => ([], assigned, st)
  | i, fuel + 1, assigned, st =>
    match courtStep rand ce ppc i assigned st with
    | .stop => ([], assigned, st)
    | .skip a2 => assignLoop rand ce ppc (i + 1) fuel a2 st
    | .court c a2 st2 =>
      (c :: (assignLoop rand ce ppc (i + 1) fuel a2 st2).1,
       (assignLoop rand ce ppc (i + 1) fuel a2 st2).2.1,
       (assignLoop rand ce ppc (i + 1) fuel a2 st2).2.2)

/-- Marking applied to unassigned / sitting-out players: status sitting-out and
consecutive games reset (no counter increment). -/
def sitMark (q : Player) : Player :=
  { q with current_status := .sitting_out, played_consecutive_games := 0 }

/-- `assign_players_to_courts(eligible_players, num_courts, players_per_court)`:
returns the court assignments, the unassigned players (marked sitting out with
consecutive games reset), and the updated heap. -/
def assign_players_to_courts (rand : Oracle) (eligible_players : List String)
    (num_courts : Nat) (players_per_court : Nat) (st : Store) :
    List (List String) × List String × Store :=
  let current_eligible := rand.shuffleAssign eligible_players
  let r := assignLoop rand current_eligible players_per_court 0 num_courts ∅ st
  let final_unassigned := eligible_players.filter (fun p => decide (p ∉ r.2.1))
  (r.1, final_unassigned, Store.foldModify sitMark final_unassigned r.2.2)

/-- The per-player bookkeeping at the top of `rotate_players` (lines 210-216):
credit the previous round, then make everyone available. -/
def step1Player (q : Player) : Player :=
  let q1 :=
    if q.current_status = .playing then { q with games_played := q.games_played + 1 }
    else if q.current_status = .sitting_out then
      { q with games_sat_out := q.games_sat_out + 1, played_consecutive_games := 0 }
    else q
  { q1 with current_status := .available }

def updateStats (st : Store) (roster : List String) : Store :=
  Store.foldModify step1Player roster st

/-- `max(0, num_players - num_courts * players_per_court)` (players_per_court
is 4 in `rotate_players`); `Nat` subtraction truncates at 0. -/
def numToSitOut (roster : List String) (num_courts : Nat) : Nat :=
  roster.length - num_courts * 4

/-- The ranked sit-out candidate list of `rotate_players` (lines 228-231). -/
def sitOutCandidates (rand : Oracle) (roster : List String) (st1 : Store) : List String :=
  pySort (sitLe st1 rand.sitTb)
    (roster.filter (fun p => decide ((st1 p).current_status = .available)))

/-- The players selected to sit out by the ranking (line 233). -/
def rotateSelected (rand : Oracle) (roster : List String) (num_courts : Nat)
    (st : Store) : List String :=
  if numToSitOut roster num_courts = 0 then []
  else (sitOutCandidates rand roster (updateStats st roster)).take
    (numToSitOut roster num_courts)

/-- The candidates forwarded to the pairing engine (lines 225 and 235). -/
def rotateForwarded (rand : Oracle) (roster : List String) (num_courts : Nat)
    (st : Store) : List String :=
  if numToSitOut roster num_courts = 0 then roster
  else roster.filter (fun p => decide (p ∉ rotateSelected rand roster num_courts st))

/-- Marking applied when an unassigned player is absorbed into the sit-out list
(lines 244-246): status, an immediate counter increment, and the reset. -/
def absorbMark (q : Player) : Player :=
  { q with current_status := .sitting_out, games_sat_out := q.games_sat_out + 1,
           played_consecutive_games := 0 }

/-- The fallback absorption loop (lines 241-246): unassigned players not
already chosen to sit out are appended to the sit-out list. -/
def absorb (unassigned : List String) (acc : List String × Store) :
    List String × Store :=
  unassigned.foldl
    (fun acc p => if p ∈ acc.1 then acc else (acc.1 ++ [p], acc.2.modify p absorbMark))
    acc

/-- `rotate_players(all_players, num_courts)`: one full round transition;
returns the courts, the sit-out list and the updated heap. -/
def rotate_players (rand : Oracle) (all_players : List String) (num_courts : Nat)
    (st : Store) : List (List String) × List String × Store :=
  let st1 := updateStats st all_players
  let sit0 := rotateSelected rand all_players num_courts st
  let players_for_next_game := rotateForwarded rand all_players num_courts st
  let shuffled := rand.shuffleRot players_for_next_game
  let r := assign_players_to_courts rand shuffled num_courts 4 st1
  let ab := absorb r.2.1 (sit0, r.2.2)
  (r.1, ab.1, Store.foldModify sitMark ab.1 ab.2)

/-- The core of `remove_player_logic` (lines 484-488): delete the named player
from the roster and purge it from the remaining players' partner sets. -/
def remove_player_logic (all_players : List String) (name : String) (st : Store) :
    List String × Store :=
  if name ∈ all_players then
    let roster2 := all_players.erase name
    (roster2,
     Store.foldModify (fun q => { q with partners := q.partners.erase name }) roster2 st)
  else (all_players, st)

/-- The heap after `k` successive calls of `rotate_players` on the same roster,
with the round-`j` random draws given by `R j`. -/
def rotateSeq (R : Nat → Oracle) (roster : List String) (num_courts : Nat)
    (st : Store) : Nat → Store
  | 0 => st
  | k + 1 => (rotate_players (R k) roster num_courts (rotateSeq R roster num_courts st k)).2.2

/-- The sit-out list returned by the `(k+1)`-st call of `rotate_players`. -/
def sittersAt (R : Nat → Oracle) (roster : List String) (num_courts : Nat)
    (st : Store) (k : Nat) : List String :=
  (rotate_players (R k) roster num_courts (rotateSeq R roster num_courts st k)).2.1

/-- The history invariant of §3 of the spec, restricted to a roster: partner
sets are symmetric and never contain the player itself. -/
def PartnersSym (R : List String) (st : Store) : Prop :=
  (∀ a ∈ R, ∀ b ∈ R, (a ∈ (st b).partners ↔ b ∈ (st a).partners)) ∧
  ∀ a ∈ R, a ∉ (st a).partners

/-- Everything the claims need about one run of the court-forming loop with
court size 4 over a duplicate-free candidate list `ce`. -/
structure AssignLoopSpec (ce : List String) (assigned : Finset String) (st : Store)
    (fuel : Nat) (r : List (List String) × Finset String × Store) : Prop where
  count : r.1.length = min fuel ((ce.filter (fun p => decide (p ∉ assigned))).length / 4)
  csize : ∀ c ∈ r.1, c.length = 4
  cnodup : r.1.flatten.Nodup
  cmem : ∀ n ∈ r.1.flatten, n ∈ ce ∧ n ∉ assigned
  amem : ∀ n, n ∈ r.2.1 ↔ n ∈ assigned ∨ n ∈ r.1.flatten
  souter : ∀ n, n ∉ r.1.flatten → r.2.2 n = st n
  splayer : ∀ n ∈ r.1.flatten,
    (r.2.2 n).current_status = Status.playing ∧
    (r.2.2 n).played_consecutive_games = (st n).played_consecutive_games + 1 ∧
    (r.2.2 n).games_played = (st n).games_played ∧
    (r.2.2 n).games_sat_out = (st n).games_sat_out ∧
    (st n).partners ⊆ (r.2.2 n).partners
  ssym : ∀ R : List String, PartnersSym R st → PartnersSym R r.2.2

/-- Everything the claims need about `assign_players_to_courts` with the
default court size 4, a well-formed oracle and distinct player names. -/
structure AssignSpec (elig : List String) (st : Store) (c : Nat)
    (r : List (List String) × List String × Store) : Prop where
  count : r.1.length = min c (elig.length / 4)
  csize : ∀ co ∈ r.1, co.length = 4
  cnodup : r.1.flatten.Nodup
  cmem : ∀ n ∈ r.1.flatten, n ∈ elig
  umem : ∀ n, n ∈ r.2.1 ↔ n ∈ elig ∧ n ∉ r.1.flatten
  unodup : r.2.1.Nodup
  conserve : r.2.1.length + 4 * r.1.length = elig.length
  games : ∀ n, (r.2.2 n).games_played = (st n).games_played ∧
    (r.2.2 n).games_sat_out = (st n).games_sat_out
  souter : ∀ n, n ∉ r.1.flatten → n ∉ r.2.1 → r.2.2 n = st n
  splayer : ∀ n ∈ r.1.flatten,
    (r.2.2 n).current_status = Status.playing ∧
    (r.2.2 n).played_consecutive_games = (st n).played_consecutive_games + 1 ∧
    (st n).partners ⊆ (r.2.2 n).partners
  sunassigned : ∀ n ∈ r.2.1,
    (r.2.2 n).current_status = Status.sitting_out ∧
    (r.2.2 n).played_consecutive_games = 0 ∧
    (r.2.2 n).partners = (st n).partners
  ssym : ∀ R : List String, PartnersSym R st → PartnersSym R r.2.2
  pmono : ∀ n, (st n).partners ⊆ (r.2.2 n).partners

/-- The pairing-engine call made inside `rotate_players` (line 239), on the
shuffled forwarded candidates and the bookkept heap. -/
def rotateAssign (rand : Oracle) (roster : List String) (c : Nat) (st : Store) :
    List (List String) × List String × Store :=
  assign_players_to_courts rand (rand.shuffleRot (rotateForwarded rand roster c st)) c 4
    (updateStats st roster)

/-- A heap in which every player has already been marked sitting out. -/
def sitOutStore : Store := fun _ => { Player.fresh with current_status := Status.sitting_out }

/-- The round in which a player most recently sat out (`0` when it never has),
read off the sequence of sit-out lists. -/
def lastSat (R : Nat → Oracle) (roster : List String) (num_courts : Nat) (st : Store) :
    Nat → String → Nat
  | 0, _ => 0
  | k + 1, n =>
    if n ∈ sittersAt R roster num_courts st k then k + 1
    else lastSat R roster num_courts st k n

theorem idRand_wf : idRand.WF :=
  ⟨fun l => List.Perm.refl l, fun l => List.Perm.refl l⟩

/-! ### Sorting lemmas -/

theorem sinsert_perm (le : α → α → Bool) (x : α) (l : List α) :
    (sinsert le x l).Perm (x :: l) := by
  induction l with
  | nil => exact List.Perm.refl _
  | cons y ys ih =>
    simp only [sinsert]
    split
    · exact (ih.cons y).trans (List.Perm.swap x y ys)
    · exact List.Perm.refl _

theorem pySort_perm (le : α → α → Bool) (l : List α) : (pySort le l).Perm l := by
  suffices h : ∀ (l acc : List α),
      (l.foldl (fun acc x => sinsert le x acc) acc).Perm (acc ++ l) by
    simpa using h l []
  intro l
  induction l with
  | nil => simp
  | cons x xs ih =>
    intro acc
    simp only [List.foldl_cons]
    refine (ih (sinsert le x acc)).trans ?_
    refine (((sinsert_perm le x acc).append_right xs).trans ?_)
    exact List.perm_middle.symm

theorem mem_pySort {le : α → α → Bool} {l : List α} {a : α} :
    a ∈ pySort le l ↔ a ∈ l :=
  (pySort_perm le l).mem_iff

theorem length_pySort (le : α → α → Bool) (l : List α) :
    (pySort le l).length = l.length :=
  (pySort_perm le l).length_eq

theorem sinsert_pairwise {le : α → α → Bool}
    (trans : ∀ a b c, le a b → le b c → le a c)
    (total : ∀ a b, le a b || le b a) (x : α) {l : List α}
    (h : l.Pairwise (fun a b => le a b)) :
    (sinsert le x l).Pairwise (fun a b => le a b) := by
  induction l with
  | nil => simp [sinsert]
  | cons y ys ih =>
    rw [List.pairwise_cons] at h
    simp only [sinsert]
    split
    · rename_i hyx
      rw [List.pairwise_cons]
      refine ⟨fun b hb => ?_, ih h.2⟩
      rcases List.mem_cons.1 ((sinsert_perm le x ys).mem_iff.1 hb) with rfl | hb'
      · exact hyx
      · exact h.1 b hb'
    · rename_i hyx
      have hxy : le x y := by
        rcases Bool.or_eq_true_iff.1 (total y x) with h' | h'
        · exact absurd h' hyx
        · exact h'
      rw [List.pairwise_cons]
      refine ⟨fun b hb => ?_, List.pairwise_cons.2 ⟨h.1, h.2⟩⟩
      rcases List.mem_cons.1 hb with rfl | hb'
      · exact hxy
      · exact trans x y b hxy (h.1 b hb')

theorem pySort_pairwise {le : α → α → Bool}
    (trans : ∀ a b c, le a b → le b c → le a c)
    (total : ∀ a b, le a b || le b a) (l : List α) :
    (pySort le l).Pairwise (fun a b => le a b) := by
  suffices h : ∀ (l acc : List α), acc.Pairwise (fun a b => le a b) →
      (l.foldl (fun acc x => sinsert le x acc) acc).Pairwise (fun a b => le a b) by
    exact h l [] (by simp)
  intro l
  induction l with
  | nil => exact fun acc h => h
  | cons x xs ih =>
    intro acc hacc
    simp only [List.foldl_cons]
    exact ih _ (sinsert_pairwise trans total x hacc)

/-- The first element of a stable sort is `le` every element of the list. -/
theorem pySort_head_le {le : α → α → Bool}
    (trans : ∀ a b c, le a b → le b c → le a c)
    (total : ∀ a b, le a b || le b a) {l : List α} {p : α} {rest : List α}
    (h : pySort le l = p :: rest) : ∀ b ∈ l, le p b := by
  intro b hb
  have hb' : b ∈ p :: rest := h ▸ mem_pySort.2 hb
  rcases List.mem_cons.1 hb' with rfl | hb' 
  · rcases Bool.or_eq_true_iff.1 (total b b) with h' | h' <;> exact h'
  · have hp := pySort_pairwise trans total l
    rw [h, List.pairwise_cons] at hp
    exact hp.1 b hb'

/-! ### Store lemmas -/

theorem Store.modify_apply (st : Store) (p : String) (f : Player → Player) (n : String) :
    st.modify p f n = if n = p then f (st n) else st n := rfl

theorem Store.foldModify_apply (f : Player → Player) {l : List String} (hl : l.Nodup)
    (st : Store) (n : String) :
    Store.foldModify f l st n = if n ∈ l then f (st n) else st n := by
  induction l generalizing st with
  | nil => simp [Store.foldModify]
  | cons a l ih =>
    rw [List.nodup_cons] at hl
    show Store.foldModify f l (st.modify a f) n = _
    rw [ih hl.2]
    by_cases hn : n ∈ l
    · have hna : n ≠ a := fun h => hl.1 (h ▸ hn)
      simp [Store.modify_apply, hna, hn]
    · by_cases hna : n = a
      · subst hna
        simp [Store.modify_apply, hn]
      · simp [Store.modify_apply, hna, hn]

theorem Store.modify_proj {β : Type} (g : Player → β) (st : Store) (p : String)
    (f : Player → Player) (hf : ∀ q, g (f q) = g q) (n : String) :
    g (st.modify p f n) = g (st n) := by
  rw [Store.modify_apply]
  split <;> simp [hf]

theorem Store.foldModify_proj {β : Type} (g : Player → β) (f : Player → Player)
    (hf : ∀ q, g (f q) = g q) (l : List String) (st : Store) (n : String) :
    g (Store.foldModify f l st n) = g (st n) := by
  induction l generalizing st with
  | nil => rfl
  | cons a l ih =>
    show g (Store.foldModify f l (st.modify a f) n) = _
    rw [ih, Store.modify_proj g st a f hf]

theorem Store.foldModify_partners_mono (f : Player → Player)
    (hf : ∀ q, q.partners ⊆ (f q).partners) (l : List String) (st : Store) (n : String) :
    (st n).partners ⊆ (Store.foldModify f l st n).partners := by
  induction l generalizing st with
  | nil => exact Finset.Subset.refl _
  | cons a l ih =>
    show (st n).partners ⊆ (Store.foldModify f l (st.modify a f) n).partners
    refine Finset.Subset.trans ?_ (ih _)
    rw [Store.modify_apply]
    split
    · exact hf _
    · exact Finset.Subset.refl _

/-! ### List counting helpers -/

theorem mem_of_mem_filter_not_mem {l : List String} {A : Finset String} {x : String}
    (h : x ∈ l.filter (fun y => decide (y ∉ A))) : x ∈ l ∧ x ∉ A := by
  have := List.mem_filter.1 h
  simpa using this

theorem length_filter_not_mem_insert {l : List String} (hl : l.Nodup)
    {A : Finset String} {p : String} (hp : p ∈ l) (hpA : p ∉ A) :
    (l.filter (fun x => decide (x ∉ insert p A))).length + 1 =
      (l.filter (fun x => decide (x ∉ A))).length := by
  induction l with
  | nil => cases hp
  | cons a l ih =>
    rw [List.nodup_cons] at hl
    rcases List.mem_cons.1 hp with rfl | hpl
    · rw [List.filter_cons_of_neg (by simp), List.filter_cons_of_pos (by simpa using hpA)]
      have hcong : l.filter (fun x => decide (x ∉ insert p A)) =
          l.filter (fun x => decide (x ∉ A)) := by
        refine List.filter_congr (fun x hx => ?_)
        have hxp : x ≠ p := fun h => hl.1 (h ▸ hx)
        simp [Finset.mem_insert, hxp]
      rw [hcong, List.length_cons]
    · have hap : a ≠ p := fun h => hl.1 (h ▸ hpl)
      by_cases haA : a ∈ A
      · rw [List.filter_cons_of_neg (by simp [Finset.mem_insert, haA]),
            List.filter_cons_of_neg (by simp [haA])]
        exact ih hl.2 hpl
      · rw [List.filter_cons_of_pos (by simp [Finset.mem_insert, haA, hap]),
            List.filter_cons_of_pos (by simp [haA])]
        simp only [List.length_cons]
        rw [← ih hl.2 hpl]

/-! ### The partnership bookkeeping of a formed court -/

theorem applyCourt_proj {β : Type} (g : Player → β)
    (hg : ∀ (q : Player) (x : String), g { q with partners := insert x q.partners } = g q)
    (hg2 : ∀ q : Player, g { q with current_status := Status.playing, played_consecutive_games := q.played_consecutive_games + 1 } = g q)
    (p1 p2 p3 p4 : String) (st : Store) (n : String) :
    g (applyCourt p1 p2 p3 p4 st n) = g (st n) := by
  unfold applyCourt
  rw [Store.foldModify_proj g _ hg2,
      Store.modify_proj g _ _ _ (fun q => hg q p3),
      Store.modify_proj g _ _ _ (fun q => hg q p4),
      Store.modify_proj g _ _ _ (fun q => hg q p1),
      Store.modify_proj g _ _ _ (fun q => hg q p2)]

theorem applyCourt_games (p1 p2 p3 p4 : String) (st : Store) (n : String) :
    (applyCourt p1 p2 p3 p4 st n).games_played = (st n).games_played ∧
    (applyCourt p1 p2 p3 p4 st n).games_sat_out = (st n).games_sat_out :=
  ⟨applyCourt_proj (fun q => q.games_played) (fun _ _ => rfl) (fun _ => rfl) p1 p2 p3 p4 st n,
   applyCourt_proj (fun q => q.games_sat_out) (fun _ _ => rfl) (fun _ => rfl) p1 p2 p3 p4 st n⟩

theorem applyCourt_apply (p1 p2 p3 p4 : String)
    (h12 : p1 ≠ p2) (h13 : p1 ≠ p3) (h14 : p1 ≠ p4)
    (h23 : p2 ≠ p3) (h24 : p2 ≠ p4) (h34 : p3 ≠ p4) (st : Store) (n : String) :
    applyCourt p1 p2 p3 p4 st n =
      if n = p1 then
        { st n with partners := insert p2 (st n).partners, current_status := .playing, played_consecutive_games := (st n).played_consecutive_games + 1 }
      else if n = p2 then
        { st n with partners := insert p1 (st n).partners, current_status := .playing, played_consecutive_games := (st n).played_consecutive_games + 1 }
      else if n = p3 then
        { st n with partners := insert p4 (st n).partners, current_status := .playing, played_consecutive_games := (st n).played_consecutive_games + 1 }
      else if n = p4 then
        { st n with partners := insert p3 (st n).partners, current_status := .playing, played_consecutive_games := (st n).played_consecutive_games + 1 }
      else st n := by
  unfold applyCourt Store.foldModify
  simp only [List.foldl_cons, List.foldl_nil]
  by_cases h1 : n = p1
  · subst h1
    simp [Store.modify, h12, h13, h14, Ne.symm h12, Ne.symm h13, Ne.symm h14]
  · by_cases h2 : n = p2
    · subst h2
      simp [Store.modify, Ne.symm h12, h23, h24, Ne.symm h23, Ne.symm h24, h1]
    · by_cases h3 : n = p3
      · subst h3
        simp [Store.modify, Ne.symm h13, Ne.symm h23, h34, Ne.symm h34, h1, h2]
      · by_cases h4 : n = p4
        · subst h4
          simp [Store.modify, Ne.symm h14, Ne.symm h24, Ne.symm h34, h1, h2, h3]
        · simp [Store.modify, h1, h2, h3, h4]

theorem partnersSym_of_partners_eq {R : List String} {st st' : Store}
    (h : ∀ n, (st' n).partners = (st n).partners) (hsym : PartnersSym R st) :
    PartnersSym R st' := by
  obtain ⟨hs, hf⟩ := hsym
  refine ⟨fun a ha b hb => ?_, fun a ha => ?_⟩
  · rw [h, h]; exact hs a ha b hb
  · rw [h]; exact hf a ha

theorem partnersSym_addPair {R : List String} {st : Store} {x y : String} (hxy : x ≠ y)
    (h : PartnersSym R st) :
    PartnersSym R
      ((st.modify x (fun q => { q with partners := insert y q.partners })).modify y
        (fun q => { q with partners := insert x q.partners })) := by
  obtain ⟨hs, hf⟩ := h
  set st' := (st.modify x (fun q => { q with partners := insert y q.partners })).modify y
      (fun q => { q with partners := insert x q.partners }) with hst'
  have hmem : ∀ u v : String, (u ∈ (st' v).partners ↔
      (u ∈ (st v).partners ∨ (v = y ∧ u = x) ∨ (v = x ∧ u = y))) := by
    intro u v
    rw [hst']
    simp only [Store.modify_apply]
    by_cases hvy : v = y
    · subst hvy
      rw [if_pos rfl, if_neg (Ne.symm hxy)]
      simp only [Finset.mem_insert]
      simp [Ne.symm hxy]
      tauto
    · by_cases hvx : v = x
      · subst hvx
        rw [if_neg hvy, if_pos rfl]
        simp only [Finset.mem_insert]
        simp [hvy]
        tauto
      · rw [if_neg hvy, if_neg hvx]
        simp [hvy, hvx]
  refine ⟨fun a ha b hb => ?_, fun a ha => ?_⟩
  · rw [hmem a b, hmem b a]
    have h0 := hs a ha b hb
    tauto
  · rw [hmem a a]
    rintro (h0 | ⟨h1, h2⟩ | ⟨h1, h2⟩)
    · exact hf a ha h0
    · exact hxy (h2.symm.trans h1)
    · exact hxy (h1.symm.trans h2)

theorem applyCourt_partnersSym {R : List String} {st : Store} {p1 p2 p3 p4 : String}
    (h12 : p1 ≠ p2) (h34 : p3 ≠ p4) (h : PartnersSym R st) :
    PartnersSym R (applyCourt p1 p2 p3 p4 st) := by
  unfold applyCourt
  exact partnersSym_of_partners_eq
    (fun n => Store.foldModify_proj (fun q => q.partners)
      (fun q => { q with current_status := Status.playing, played_consecutive_games := q.played_consecutive_games + 1 })
      (fun _ => rfl) _ _ n)
    (partnersSym_addPair h34 (partnersSym_addPair h12 h))

/-! ### One iteration of the court loop -/

theorem pySort_exists_cons (le : α → α → Bool) (l : List α) (h : l ≠ []) :
    ∃ a rest, pySort le l = a :: rest ∧ a ∈ l := by
  cases hs : pySort le l with
  | nil =>
    exfalso
    have := length_pySort le l
    rw [hs] at this
    exact h (List.length_eq_zero.1 this.symm)
  | cons a rest =>
    exact ⟨a, rest, rfl, mem_pySort.1 (hs ▸ List.mem_cons_self a rest)⟩

theorem pickPartner_isSome (st : Store) (anchor : String) (tb : String → Nat)
    (remaining : List String) (h : remaining ≠ []) :
    ∃ q, pickPartner st anchor tb remaining = some q ∧ q ∈ remaining := by
  unfold pickPartner
  cases hno : pySort (cardLe st)
      (remaining.filter (fun p => decide (p ∉ (st anchor).partners))) with
  | cons q rest =>
    refine ⟨q, rfl, ?_⟩
    have := mem_pySort.1 (hno ▸ List.mem_cons_self q rest)
    exact (List.mem_filter.1 this).1
  | nil =>
    cases hw : pySort (repeatLe st anchor tb)
        (remaining.filter (fun p => decide (p ∈ (st anchor).partners))) with
    | cons q rest =>
      refine ⟨q, rfl, ?_⟩
      have := mem_pySort.1 (hw ▸ List.mem_cons_self q rest)
      exact (List.mem_filter.1 this).1
    | nil =>
      exfalso
      have hno' : remaining.filter (fun p => decide (p ∉ (st anchor).partners)) = [] := by
        have hl := length_pySort (cardLe st)
          (remaining.filter (fun p => decide (p ∉ (st anchor).partners)))
        rw [hno] at hl
        exact List.length_eq_zero.1 hl.symm
      have hw' : remaining.filter (fun p => decide (p ∈ (st anchor).partners)) = [] := by
        have hl := length_pySort (repeatLe st anchor tb)
          (remaining.filter (fun p => decide (p ∈ (st anchor).partners)))
        rw [hw] at hl
        exact List.length_eq_zero.1 hl.symm
      refine h (List.eq_nil_iff_forall_not_mem.2 fun x hx => ?_)
      by_cases hxp : x ∈ (st anchor).partners
      · exact List.eq_nil_iff_forall_not_mem.1 hw' x (List.mem_filter.2 ⟨hx, by simpa using hxp⟩)
      · exact List.eq_nil_iff_forall_not_mem.1 hno' x (List.mem_filter.2 ⟨hx, by simpa using hxp⟩)

theorem courtStep_stop (rand : Oracle) {ce : List String} (i : Nat)
    {assigned : Finset String} (st : Store)
    (h : (ce.filter (fun p => decide (p ∉ assigned))).length < 4) :
    courtStep rand ce 4 i assigned st = .stop := by
  unfold courtStep
  rw [if_pos h]

theorem filter_filter_not_mem {l : List String} {A B : Finset String}
    (hAB : ∀ x, x ∈ A → x ∈ B) :
    (l.filter (fun p => decide (p ∉ A))).filter (fun p => decide (p ∉ B)) =
      l.filter (fun p => decide (p ∉ B)) := by
  rw [List.filter_filter]
  refine List.filter_congr (fun x _ => ?_)
  by_cases hB : x ∈ B
  · simp [hB]
  · have hA : x ∉ A := fun hA => hB (hAB x hA)
    simp [hB, hA]

theorem courtStep_court (rand : Oracle) {ce : List String} (hce : ce.Nodup) (i : Nat)
    {assigned : Finset String} (st : Store)
    (h4 : 4 ≤ (ce.filter (fun p => decide (p ∉ assigned))).length) :
    ∃ p1 p2 p3 p4 : String,
      courtStep rand ce 4 i assigned st =
        .court [p1, p2, p3, p4]
          (insert p4 (insert p3 (insert p2 (insert p1 assigned))))
          (applyCourt p1 p2 p3 p4 st) ∧
      [p1, p2, p3, p4].Nodup ∧
      ∀ n ∈ [p1, p2, p3, p4], n ∈ ce ∧ n ∉ assigned := by
  -- player 1
  obtain ⟨p1, r1, hs1, hp1⟩ :=
    pySort_exists_cons (p1Le st (rand.p1Tb i))
      (ce.filter (fun p => decide (p ∉ assigned)))
      (by intro h0; rw [h0] at h4; simp at h4)
  obtain ⟨hp1ce, hp1a⟩ := mem_of_mem_filter_not_mem hp1
  -- length bookkeeping
  have hcol1 : (ce.filter (fun p => decide (p ∉ assigned))).filter
      (fun p => decide (p ∉ insert p1 assigned)) =
      ce.filter (fun p => decide (p ∉ insert p1 assigned)) :=
    filter_filter_not_mem (fun x hx => Finset.mem_insert_of_mem hx)
  have hlen1 := length_filter_not_mem_insert hce hp1ce hp1a
  -- player 2
  obtain ⟨p2, hs2, hp2⟩ :=
    pickPartner_isSome st p1 (rand.p2Tb i)
      ((ce.filter (fun p => decide (p ∉ assigned))).filter
        (fun p => decide (p ∉ insert p1 assigned)))
      (by
        intro h0
        rw [hcol1] at h0
        rw [h0] at hlen1
        simp only [List.length_nil] at hlen1
        omega)
  rw [hcol1] at hp2
  obtain ⟨hp2ce, hp2a1⟩ := mem_of_mem_filter_not_mem hp2
  have hp2p1 : p2 ≠ p1 := fun h => hp2a1 (by rw [h]; exact Finset.mem_insert_self p1 assigned)
  have hp2a : p2 ∉ assigned := fun h => hp2a1 (Finset.mem_insert_of_mem h)
  have hlen2 := length_filter_not_mem_insert hce hp2ce hp2a1
  -- player 3
  have hcol2 : (ce.filter (fun p => decide (p ∉ assigned))).filter
      (fun p => decide (p ∉ insert p2 (insert p1 assigned))) =
      ce.filter (fun p => decide (p ∉ insert p2 (insert p1 assigned))) :=
    filter_filter_not_mem
      (fun x hx => Finset.mem_insert_of_mem (Finset.mem_insert_of_mem hx))
  obtain ⟨p3, r3, hs3, hp3⟩ :=
    pySort_exists_cons (cardLe st)
      ((ce.filter (fun p => decide (p ∉ assigned))).filter
        (fun p => decide (p ∉ insert p2 (insert p1 assigned))))
      (by
        intro h0
        rw [hcol2] at h0
        rw [h0] at hlen2
        simp only [List.length_nil] at hlen2
        omega)
  rw [hcol2] at hp3
  obtain ⟨hp3ce, hp3a2⟩ := mem_of_mem_filter_not_mem hp3
  have hp3p2 : p3 ≠ p2 := fun h => hp3a2 (by rw [h]; exact Finset.mem_insert_self p2 _)
  have hp3p1 : p3 ≠ p1 := fun h =>
    hp3a2 (by rw [h]; exact Finset.mem_insert_of_mem (Finset.mem_insert_self p1 assigned))
  have hp3a : p3 ∉ assigned := fun h =>
    hp3a2 (Finset.mem_insert_of_mem (Finset.mem_insert_of_mem h))
  have hlen3 := length_filter_not_mem_insert hce hp3ce hp3a2
  -- player 4
  have hcol3 : (ce.filter (fun p => decide (p ∉ assigned))).filter
      (fun p => decide (p ∉ insert p3 (insert p2 (insert p1 assigned)))) =
      ce.filter (fun p => decide (p ∉ insert p3 (insert p2 (insert p1 assigned)))) :=
    filter_filter_not_mem (fun x hx =>
      Finset.mem_insert_of_mem (Finset.mem_insert_of_mem (Finset.mem_insert_of_mem hx)))
  obtain ⟨p4, hs4, hp4⟩ :=
    pickPartner_isSome st p3 (rand.p4Tb i)
      ((ce.filter (fun p => decide (p ∉ assigned))).filter
        (fun p => decide (p ∉ insert p3 (insert p2 (insert p1 assigned)))))
      (by
        intro h0
        rw [hcol3] at h0
        rw [h0] at hlen3
        simp only [List.length_nil] at hlen3
        omega)
  rw [hcol3] at hp4
  obtain ⟨hp4ce, hp4a3⟩ := mem_of_mem_filter_not_mem hp4
  have hp4p3 : p4 ≠ p3 := fun h => hp4a3 (by rw [h]; exact Finset.mem_insert_self p3 _)
  have hp4p2 : p4 ≠ p2 := fun h =>
    hp4a3 (by rw [h]; exact Finset.mem_insert_of_mem (Finset.mem_insert_self p2 _))
  have hp4p1 : p4 ≠ p1 := fun h =>
    hp4a3 (by rw [h]; exact Finset.mem_insert_of_mem (Finset.mem_insert_of_mem
      (Finset.mem_insert_self p1 assigned)))
  have hp4a : p4 ∉ assigned := fun h =>
    hp4a3 (Finset.mem_insert_of_mem (Finset.mem_insert_of_mem (Finset.mem_insert_of_mem h)))
  refine ⟨p1, p2, p3, p4, ?_, ?_, ?_⟩
  · unfold courtStep
    rw [if_neg (not_lt.2 h4)]
    simp only [hs1, hs2, hs3, hs4]
  · simp [hp2p1, hp3p1, hp3p2, hp4p1, hp4p2, hp4p3,
      Ne.symm hp2p1, Ne.symm hp3p1, Ne.symm hp3p2, Ne.symm hp4p1, Ne.symm hp4p2, Ne.symm hp4p3]
  · intro n hn
    simp only [List.mem_cons, List.not_mem_nil, or_false] at hn
    rcases hn with rfl | rfl | rfl | rfl
    · exact ⟨hp1ce, hp1a⟩
    · exact ⟨hp2ce, hp2a⟩
    · exact ⟨hp3ce, hp3a⟩
    · exact ⟨hp4ce, hp4a⟩

/-! ### The court-forming loop -/

theorem assignLoop_spec (rand : Oracle) (ce : List String) (hce : ce.Nodup) :
    ∀ (fuel i : Nat) (assigned : Finset String) (st : Store),
      AssignLoopSpec ce assigned st fuel (assignLoop rand ce 4 i fuel assigned st) := by
  intro fuel
  induction fuel with
  | zero =>
    intro i assigned st
    refine ⟨?_, ?_, ?_, ?_, ?_, ?_, ?_, ?_⟩ <;> simp [assignLoop]
  | succ fuel ih =>
    intro i assigned st
    by_cases hlen : (ce.filter (fun p => decide (p ∉ assigned))).length < 4
    · have hstep := courtStep_stop rand i st hlen
      have hres : assignLoop rand ce 4 i (fuel + 1) assigned st = ([], assigned, st) := by
        simp only [assignLoop]
        rw [hstep]
      rw [hres]
      have hdiv : (ce.filter (fun p => decide (p ∉ assigned))).length / 4 = 0 :=
        Nat.div_eq_of_lt hlen
      refine ⟨?_, ?_, ?_, ?_, ?_, ?_, ?_, ?_⟩
      · simp only [List.length_nil]
        rw [hdiv]
        simp
      · simp
      · simp
      · simp
      · intro n
        simp
      · intro n _
        rfl
      · simp
      · intro R h
        exact h
    · push_neg at hlen
      obtain ⟨p1, p2, p3, p4, hstep, hnodup, hmem4⟩ :=
        courtStep_court rand hce i st hlen
      have hres : assignLoop rand ce 4 i (fuel + 1) assigned st =
          ([p1, p2, p3, p4] ::
            (assignLoop rand ce 4 (i + 1) fuel
              (insert p4 (insert p3 (insert p2 (insert p1 assigned))))
              (applyCourt p1 p2 p3 p4 st)).1,
           (assignLoop rand ce 4 (i + 1) fuel
              (insert p4 (insert p3 (insert p2 (insert p1 assigned))))
              (applyCourt p1 p2 p3 p4 st)).2.1,
           (assignLoop rand ce 4 (i + 1) fuel
              (insert p4 (insert p3 (insert p2 (insert p1 assigned))))
              (applyCourt p1 p2 p3 p4 st)).2.2) := by
        simp only [assignLoop]
        rw [hstep]
      set a4 := insert p4 (insert p3 (insert p2 (insert p1 assigned))) with ha4
      set st' := applyCourt p1 p2 p3 p4 st with hst'
      have IH := ih (i + 1) a4 st'
      set r := assignLoop rand ce 4 (i + 1) fuel a4 st' with hr
      -- pairwise distinctness of the court
      have h12 : p1 ≠ p2 := by intro h; rw [h] at hnodup; simp at hnodup
      have h13 : p1 ≠ p3 := by intro h; rw [h] at hnodup; simp at hnodup
      have h14 : p1 ≠ p4 := by intro h; rw [h] at hnodup; simp at hnodup
      have h23 : p2 ≠ p3 := by intro h; rw [h] at hnodup; simp at hnodup
      have h24 : p2 ≠ p4 := by intro h; rw [h] at hnodup; simp at hnodup
      have h34 : p3 ≠ p4 := by intro h; rw [h] at hnodup; simp at hnodup
      have hm1 := hmem4 p1 (by simp)
      have hm2 := hmem4 p2 (by simp)
      have hm3 := hmem4 p3 (by simp)
      have hm4 := hmem4 p4 (by simp)
      -- the court is inside `a4`
      have hca4 : ∀ n ∈ [p1, p2, p3, p4], n ∈ a4 := by
        intro n hn
        simp only [List.mem_cons, List.not_mem_nil, or_false] at hn
        rw [ha4]
        rcases hn with rfl | rfl | rfl | rfl <;> simp [Finset.mem_insert]
      have hsub4 : ∀ n, n ∈ a4 ↔ n ∈ ([p1, p2, p3, p4] : List String) ∨ n ∈ assigned := by
        intro n
        rw [ha4]
        simp only [Finset.mem_insert, List.mem_cons, List.not_mem_nil, or_false]
        tauto
      -- length bookkeeping: the new candidate pool lost exactly four players
      have hstage2 : p2 ∉ insert p1 assigned := by
        simp [Finset.mem_insert, Ne.symm h12, hm2.2]
      have hstage3 : p3 ∉ insert p2 (insert p1 assigned) := by
        simp [Finset.mem_insert, Ne.symm h13, Ne.symm h23, hm3.2]
      have hstage4 : p4 ∉ insert p3 (insert p2 (insert p1 assigned)) := by
        simp [Finset.mem_insert, Ne.symm h14, Ne.symm h24, Ne.symm h34, hm4.2]
      have hl1 := length_filter_not_mem_insert hce hm1.1 hm1.2
      have hl2 := length_filter_not_mem_insert hce hm2.1 hstage2
      have hl3 := length_filter_not_mem_insert hce hm3.1 hstage3
      have hl4 := length_filter_not_mem_insert hce hm4.1 hstage4
      rw [hres]
      refine ⟨?_, ?_, ?_, ?_, ?_, ?_, ?_, ?_⟩
      · -- count
        have hc := IH.count
        simp only [List.length_cons]
        rw [← ha4] at hl4
        omega
      · -- court sizes
        intro c hc
        rcases List.mem_cons.1 hc with rfl | hc
        · rfl
        · exact IH.csize c hc
      · -- flattened court list has no duplicates
        simp only [List.flatten_cons]
        rw [List.nodup_append]
        refine ⟨hnodup, IH.cnodup, fun n hn hn' => ?_⟩
        exact (IH.cmem n hn').2 (hca4 n hn)
      · -- members come from the unassigned pool
        intro n hn
        simp only [List.flatten_cons, List.mem_append] at hn
        rcases hn with hn | hn
        · exact hmem4 n hn
        · obtain ⟨hn1, hn2⟩ := IH.cmem n hn
          exact ⟨hn1, fun h => hn2 ((hsub4 n).2 (Or.inr h))⟩
      · -- the assigned set is the old one plus the courts
        intro n
        rw [IH.amem n]
        simp only [List.flatten_cons, List.mem_append]
        rw [hsub4 n]
        tauto
      · -- untouched players
        intro n hn
        simp only [List.flatten_cons, List.mem_append] at hn
        push_neg at hn
        rw [IH.souter n hn.2, hst', applyCourt_apply p1 p2 p3 p4 h12 h13 h14 h23 h24 h34]
        have hn1 : n ≠ p1 := fun h => hn.1 (by simp [h])
        have hn2 : n ≠ p2 := fun h => hn.1 (by simp [h])
        have hn3 : n ≠ p3 := fun h => hn.1 (by simp [h])
        have hn4 : n ≠ p4 := fun h => hn.1 (by simp [h])
        simp [hn1, hn2, hn3, hn4]
      · -- seated players
        intro n hn
        simp only [List.flatten_cons, List.mem_append] at hn
        have hsplit : (n ∈ ([p1, p2, p3, p4] : List String) ∧ n ∉ r.1.flatten) ∨
            (n ∈ r.1.flatten ∧ n ∉ ([p1, p2, p3, p4] : List String)) := by
          rcases hn with hn | hn
          · exact Or.inl ⟨hn, fun h => (IH.cmem n h).2 (hca4 n hn)⟩
          · exact Or.inr ⟨hn, fun h => (IH.cmem n hn).2 (hca4 n h)⟩
        rcases hsplit with ⟨hn, hn'⟩ | ⟨hn, hn'⟩
        · rw [IH.souter n hn', hst',
            applyCourt_apply p1 p2 p3 p4 h12 h13 h14 h23 h24 h34]
          simp only [List.mem_cons, List.not_mem_nil, or_false] at hn
          rcases hn with rfl | rfl | rfl | rfl
          · simp [Finset.subset_insert]
          · simp [Ne.symm h12, Finset.subset_insert]
          · simp [Ne.symm h13, Ne.symm h23, Finset.subset_insert]
          · simp [Ne.symm h14, Ne.symm h24, Ne.symm h34, Finset.subset_insert]
        · have hst'eq : st' n = st n := by
            rw [hst', applyCourt_apply p1 p2 p3 p4 h12 h13 h14 h23 h24 h34]
            have hn1 : n ≠ p1 := fun h => hn' (by simp [h])
            have hn2 : n ≠ p2 := fun h => hn' (by simp [h])
            have hn3 : n ≠ p3 := fun h => hn' (by simp [h])
            have hn4 : n ≠ p4 := fun h => hn' (by simp [h])
            simp [hn1, hn2, hn3, hn4]
          obtain ⟨ha, hb, hc, hd', he⟩ := IH.splayer n hn
          rw [hst'eq] at hb hc hd' he
          exact ⟨ha, hb, hc, hd', he⟩
      · -- symmetry of partner sets is preserved
        intro R hsym
        exact IH.ssym R (applyCourt_partnersSym h12 h34 hsym)

theorem length_filter_not_mem_of_nodup {l s : List String} (hl : l.Nodup) (hs : s.Nodup)
    (hsub : ∀ x ∈ s, x ∈ l) :
    (l.filter (fun x => decide (x ∉ s))).length + s.length = l.length := by
  have hpart := (List.filter_append_perm (fun x => decide (x ∉ s)) l).length_eq
  rw [List.length_append] at hpart
  have hc : l.filter (fun x => !decide (x ∉ s)) = l.filter (fun x => decide (x ∈ s)) := by
    refine List.filter_congr (fun x _ => ?_)
    by_cases h : x ∈ s <;> simp [h]
  have hperm2 : (l.filter (fun x => decide (x ∈ s))).Perm s := by
    apply List.perm_of_nodup_nodup_toFinset_eq (hl.filter _) hs
    ext a
    simp only [List.mem_toFinset, List.mem_filter, decide_eq_true_eq]
    exact ⟨fun h => h.2, fun h => ⟨hsub a h, h⟩⟩
  rw [hc, hperm2.length_eq] at hpart
  omega

theorem length_flatten_of_all4 {L : List (List String)} (h : ∀ c ∈ L, c.length = 4) :
    L.flatten.length = 4 * L.length := by
  induction L with
  | nil => simp
  | cons a L ih =>
    simp only [List.flatten_cons, List.length_append, List.length_cons]
    rw [ih (fun c hc => h c (List.mem_cons_of_mem a hc)), h a (List.mem_cons_self a L)]
    ring

theorem assign_spec (rand : Oracle) (hwf : rand.WF) (elig : List String)
    (helig : elig.Nodup) (c : Nat) (st : Store) :
    AssignSpec elig st c (assign_players_to_courts rand elig c 4 st) := by
  have hperm : (rand.shuffleAssign elig).Perm elig := hwf.2 elig
  have hceN : (rand.shuffleAssign elig).Nodup := hperm.nodup_iff.2 helig
  have L := assignLoop_spec rand (rand.shuffleAssign elig) hceN c 0 ∅ st
  set ce := rand.shuffleAssign elig with hcedef
  set Loop := assignLoop rand ce 4 0 c ∅ st with hLoop
  set U := elig.filter (fun p => decide (p ∉ Loop.2.1)) with hU
  have hdef : assign_players_to_courts rand elig c 4 st =
      (Loop.1, U, Store.foldModify sitMark U Loop.2.2) := rfl
  -- with the empty assigned set, the candidate pool is the whole shuffled list
  have hpot : ce.filter (fun p => decide (p ∉ (∅ : Finset String))) = ce := by
    refine List.filter_eq_self.2 (fun a _ => ?_)
    simp
  have hflat : ∀ n, n ∈ Loop.2.1 ↔ n ∈ Loop.1.flatten := by
    intro n
    rw [L.amem n]
    simp
  have hfmem : ∀ n ∈ Loop.1.flatten, n ∈ elig := fun n hn =>
    hperm.mem_iff.1 (L.cmem n hn).1
  have humem : ∀ n, n ∈ U ↔ n ∈ elig ∧ n ∉ Loop.1.flatten := by
    intro n
    rw [hU]
    simp only [List.mem_filter, decide_eq_true_eq]
    rw [hflat n]
  have hUnodup : U.Nodup := helig.filter _
  have hUcongr : U = elig.filter (fun x => decide (x ∉ Loop.1.flatten)) := by
    rw [hU]
    exact List.filter_congr (fun x _ => by rw [decide_eq_decide]; rw [hflat x])
  have hconsv : U.length + 4 * Loop.1.length = elig.length := by
    rw [hUcongr, ← length_flatten_of_all4 L.csize]
    exact length_filter_not_mem_of_nodup helig L.cnodup hfmem
  -- the final marking loop touches exactly the unassigned players
  have hfin : ∀ n, Store.foldModify sitMark U Loop.2.2 n =
      if n ∈ U then sitMark (Loop.2.2 n) else Loop.2.2 n :=
    Store.foldModify_apply sitMark hUnodup Loop.2.2
  rw [hdef]
  refine ⟨?_, L.csize, L.cnodup, hfmem, humem, hUnodup, hconsv, ?_, ?_, ?_, ?_, ?_, ?_⟩
  · rw [L.count, hpot, hperm.length_eq]
  · -- games counters are never touched
    intro n
    dsimp only
    have h2 : (sitMark (Loop.2.2 n)).games_played = (Loop.2.2 n).games_played ∧
        (sitMark (Loop.2.2 n)).games_sat_out = (Loop.2.2 n).games_sat_out := ⟨rfl, rfl⟩
    have h1 : (Loop.2.2 n).games_played = (st n).games_played ∧
        (Loop.2.2 n).games_sat_out = (st n).games_sat_out := by
      by_cases hn : n ∈ Loop.1.flatten
      · obtain ⟨-, -, hg, hs, -⟩ := L.splayer n hn
        exact ⟨hg, hs⟩
      · rw [L.souter n hn]
        exact ⟨rfl, rfl⟩
    rw [hfin n]
    split
    · rw [h2.1, h2.2, h1.1, h1.2]
      exact ⟨rfl, rfl⟩
    · exact h1
  · -- players neither seated nor left unassigned are untouched
    intro n hn hu
    dsimp only at hn hu ⊢
    rw [hfin n, if_neg hu]
    exact L.souter n hn
  · -- seated players
    intro n hn
    dsimp only at hn ⊢
    have hu : n ∉ U := fun hu => ((humem n).1 hu).2 hn
    rw [hfin n, if_neg hu]
    obtain ⟨ha, hb, -, -, he⟩ := L.splayer n hn
    exact ⟨ha, hb, he⟩
  · -- unassigned players are marked sitting out
    intro n hn
    dsimp only at hn ⊢
    have hflatn : n ∉ Loop.1.flatten := ((humem n).1 hn).2
    rw [hfin n, if_pos hn, L.souter n hflatn]
    exact ⟨rfl, rfl, rfl⟩
  · -- partner-set symmetry
    intro R hsym
    dsimp only
    refine partnersSym_of_partners_eq (fun n => ?_) (L.ssym R hsym)
    rw [hfin n]
    split <;> rfl
  · -- partner sets only grow
    intro n
    dsimp only
    have hgrow : (st n).partners ⊆ (Loop.2.2 n).partners := by
      by_cases hn : n ∈ Loop.1.flatten
      · exact (L.splayer n hn).2.2.2.2
      · rw [L.souter n hn]
    have : (Store.foldModify sitMark U Loop.2.2 n).partners = (Loop.2.2 n).partners := by
      rw [hfin n]
      split <;> rfl
    rw [this]
    exact hgrow

/-! ### The rotation pipeline -/

theorem updateStats_apply {roster : List String} (hr : roster.Nodup) (st : Store)
    (n : String) :
    updateStats st roster n = if n ∈ roster then step1Player (st n) else st n :=
  Store.foldModify_apply step1Player hr st n

theorem step1Player_status (q : Player) :
    (step1Player q).current_status = Status.available := rfl

/-- After the entry bookkeeping every roster player is available, so the
sit-out candidate pool is the whole roster (in roster order). -/
theorem sitOutCandidates_eq {rand : Oracle} {roster : List String} (hr : roster.Nodup)
    (st : Store) :
    sitOutCandidates rand roster (updateStats st roster) =
      pySort (sitLe (updateStats st roster) rand.sitTb) roster := by
  unfold sitOutCandidates
  congr 1
  refine List.filter_eq_self.2 (fun a ha => ?_)
  rw [decide_eq_true_eq, updateStats_apply hr st a, if_pos ha]
  rfl

theorem rotateSelected_spec (rand : Oracle) {roster : List String} (hr : roster.Nodup)
    (c : Nat) (st : Store) :
    (rotateSelected rand roster c st).Nodup ∧
    (∀ n ∈ rotateSelected rand roster c st, n ∈ roster) ∧
    (rotateSelected rand roster c st).length = min (numToSitOut roster c) roster.length := by
  unfold rotateSelected
  split
  · rename_i h0
    simp [h0]
  · rw [sitOutCandidates_eq hr st]
    have hperm := pySort_perm (sitLe (updateStats st roster) rand.sitTb) roster
    refine ⟨?_, ?_, ?_⟩
    · exact (List.Sublist.nodup (List.take_sublist _ _)) (hperm.nodup_iff.2 hr)
    · intro n hn
      exact hperm.mem_iff.1 (List.mem_of_mem_take hn)
    · rw [List.length_take, hperm.length_eq]

theorem rotateForwarded_spec (rand : Oracle) {roster : List String} (hr : roster.Nodup)
    (c : Nat) (st : Store) :
    (rotateForwarded rand roster c st).Nodup ∧
    (∀ n, n ∈ rotateForwarded rand roster c st ↔
      n ∈ roster ∧ n ∉ rotateSelected rand roster c st) ∧
    (rotateForwarded rand roster c st).length +
      (rotateSelected rand roster c st).length = roster.length := by
  obtain ⟨hselN, hselM, -⟩ := rotateSelected_spec rand hr c st
  unfold rotateForwarded
  split
  · rename_i h0
    have hsel : rotateSelected rand roster c st = [] := by
      unfold rotateSelected
      rw [if_pos h0]
    rw [hsel]
    refine ⟨hr, fun n => ?_, by simp⟩
    simp
  · refine ⟨hr.filter _, fun n => ?_, ?_⟩
    · simp [List.mem_filter]
    · exact length_filter_not_mem_of_nodup hr hselN hselM

theorem absorb_spec {u : List String} (hu : u.Nodup) :
    ∀ (s0 : List String) (st0 : Store),
      (absorb u (s0, st0)).1 = s0 ++ u.filter (fun p => decide (p ∉ s0)) ∧
      ∀ n, (absorb u (s0, st0)).2 n =
        if n ∈ u.filter (fun p => decide (p ∉ s0)) then absorbMark (st0 n) else st0 n := by
  induction u with
  | nil =>
    intro s0 st0
    refine ⟨by simp [absorb], fun n => by simp [absorb]⟩
  | cons p u' ih =>
    intro s0 st0
    rw [List.nodup_cons] at hu
    have hstep : absorb (p :: u') (s0, st0) =
        if p ∈ s0 then absorb u' (s0, st0)
        else absorb u' (s0 ++ [p], st0.modify p absorbMark) := by
      simp only [absorb, List.foldl_cons]
      split <;> rfl
    by_cases hp : p ∈ s0
    · rw [hstep, if_pos hp]
      obtain ⟨hl, hs⟩ := ih hu.2 s0 st0
      have hfc : (p :: u').filter (fun q => decide (q ∉ s0)) =
          u'.filter (fun q => decide (q ∉ s0)) := by
        rw [List.filter_cons_of_neg (by simpa using hp)]
      rw [hfc]
      exact ⟨hl, hs⟩
    · rw [hstep, if_neg hp]
      obtain ⟨hl, hs⟩ := ih hu.2 (s0 ++ [p]) (st0.modify p absorbMark)
      have hfc : u'.filter (fun q => decide (q ∉ s0 ++ [p])) =
          u'.filter (fun q => decide (q ∉ s0)) := by
        refine List.filter_congr (fun x hx => ?_)
        have hxp : x ≠ p := fun h => hu.1 (h ▸ hx)
        rw [decide_eq_decide]
        simp [List.mem_append, hxp]
      have hfcons : (p :: u').filter (fun q => decide (q ∉ s0)) =
          p :: u'.filter (fun q => decide (q ∉ s0)) :=
        List.filter_cons_of_pos (by simpa using hp)
      constructor
      · rw [hl, hfc, hfcons, List.append_assoc]
        rfl
      · intro n
        rw [hs n, hfc, hfcons]
        by_cases hn : n = p
        · subst hn
          have hnu : n ∉ u'.filter (fun q => decide (q ∉ s0)) := by
            intro h
            exact hu.1 (List.mem_of_mem_filter h)
          rw [if_neg hnu, if_pos (List.mem_cons_self _ _)]
          simp [Store.modify_apply]
        · have hmod : st0.modify p absorbMark n = st0 n := by
            simp [Store.modify_apply, hn]
          rw [hmod]
          by_cases hm : n ∈ u'.filter (fun q => decide (q ∉ s0))
          · rw [if_pos hm, if_pos (List.mem_cons_of_mem p hm)]
          · rw [if_neg hm, if_neg (fun h => by
              rcases List.mem_cons.1 h with h' | h'
              · exact hn h'
              · exact hm h')]

theorem rotate_pipeline {rand : Oracle} (hwf : rand.WF) {roster : List String}
    (hr : roster.Nodup) (c : Nat) (st : Store) :
    (rotate_players rand roster c st).1 = (rotateAssign rand roster c st).1 ∧
    (rotate_players rand roster c st).2.1 =
      rotateSelected rand roster c st ++ (rotateAssign rand roster c st).2.1 ∧
    (∀ n, (rotate_players rand roster c st).2.2 n =
      if n ∈ rotateSelected rand roster c st ++ (rotateAssign rand roster c st).2.1
        then sitMark (if n ∈ (rotateAssign rand roster c st).2.1
          then absorbMark ((rotateAssign rand roster c st).2.2 n)
          else (rotateAssign rand roster c st).2.2 n)
        else (rotateAssign rand roster c st).2.2 n) ∧
    AssignSpec (rand.shuffleRot (rotateForwarded rand roster c st)) (updateStats st roster) c
      (rotateAssign rand roster c st) ∧
    (∀ n ∈ (rotateAssign rand roster c st).2.1, n ∉ rotateSelected rand roster c st) ∧
    (rotateSelected rand roster c st ++ (rotateAssign rand roster c st).2.1).Nodup := by
  obtain ⟨hselN, hselM, hselL⟩ := rotateSelected_spec rand hr c st
  obtain ⟨hfwdN, hfwdM, hfwdL⟩ := rotateForwarded_spec rand hr c st
  have hperm : (rand.shuffleRot (rotateForwarded rand roster c st)).Perm
      (rotateForwarded rand roster c st) := hwf.1 _
  have hshN := hperm.nodup_iff.2 hfwdN
  have AS := assign_spec rand hwf _ hshN c (updateStats st roster)
  set A := rotateAssign rand roster c st with hA
  set sel := rotateSelected rand roster c st with hsel
  have hAfold : assign_players_to_courts rand
      (rand.shuffleRot (rotateForwarded rand roster c st)) c 4 (updateStats st roster) = A := rfl
  rw [hAfold] at AS
  have hdisj : ∀ n ∈ A.2.1, n ∉ sel := by
    intro n hn
    have hsh : n ∈ rand.shuffleRot (rotateForwarded rand roster c st) := ((AS.umem n).1 hn).1
    exact ((hfwdM n).1 (hperm.mem_iff.1 hsh)).2
  have hfilter : A.2.1.filter (fun p => decide (p ∉ sel)) = A.2.1 :=
    List.filter_eq_self.2 (fun n hn => by simpa using hdisj n hn)
  obtain ⟨habL, habS⟩ := absorb_spec AS.unodup sel A.2.2
  rw [hfilter] at habL habS
  have hSN : (sel ++ A.2.1).Nodup := by
    rw [List.nodup_append]
    exact ⟨hselN, AS.unodup, fun n hn hn' => hdisj n hn' hn⟩
  have hdef : rotate_players rand roster c st =
      ((A.1, (absorb A.2.1 (sel, A.2.2)).1,
        Store.foldModify sitMark (absorb A.2.1 (sel, A.2.2)).1
          (absorb A.2.1 (sel, A.2.2)).2) :
        List (List String) × List String × Store) := rfl
  refine ⟨by rw [hdef], by rw [hdef, habL], fun n => ?_, AS, hdisj, hSN⟩
  rw [hdef]
  dsimp only
  rw [habL, Store.foldModify_apply sitMark hSN _ n, habS n]
  by_cases hns : n ∈ sel ++ A.2.1
  · rw [if_pos hns, if_pos hns]
  · have hnu : n ∉ A.2.1 := fun h => hns (List.mem_append_right sel h)
    rw [if_neg hns, if_neg hns, if_neg hnu]

/-! ### Remaining helper lemmas -/

theorem flatten_nodup_pairwise {L : List (List String)} (h : L.flatten.Nodup) :
    ∀ i j (hi : i < L.length) (hj : j < L.length), i ≠ j →
      ∀ n, n ∈ L[i] → n ∉ L[j] := by
  have hp := (List.nodup_flatten.1 h).2
  rw [List.pairwise_iff_get] at hp
  intro i j hi hj hij n hni hnj
  rcases Nat.lt_or_ge i j with hlt | hge
  · exact hp ⟨i, hi⟩ ⟨j, hj⟩ (Fin.mk_lt_mk.2 hlt) hni hnj
  · have hlt : j < i := lt_of_le_of_ne hge (fun h => hij h.symm)
    exact hp ⟨j, hj⟩ ⟨i, hi⟩ (Fin.mk_lt_mk.2 hlt) hnj hni

theorem perm_of_nodup_sub_length {s l : List String} (hs : s.Nodup) (hl : l.Nodup)
    (hsub : ∀ x ∈ s, x ∈ l) (hlen : l.length ≤ s.length) : s.Perm l := by
  apply List.perm_of_nodup_nodup_toFinset_eq hs hl
  apply Finset.eq_of_subset_of_card_le
  · intro a ha
    rw [List.mem_toFinset] at ha ⊢
    exact hsub a ha
  · rw [List.card_toFinset, List.card_toFinset, hs.dedup, hl.dedup]
    exact hlen

theorem step1Player_sat (q : Player) :
    (step1Player q).games_sat_out =
      q.games_sat_out + (if q.current_status = Status.sitting_out then 1 else 0) := by
  unfold step1Player
  rcases hq : q.current_status <;> simp [hq]

theorem step1Player_played (q : Player) :
    (step1Player q).games_played =
      q.games_played + (if q.current_status = Status.playing then 1 else 0) := by
  unfold step1Player
  rcases hq : q.current_status <;> simp [hq]

theorem step1Player_partners (q : Player) : (step1Player q).partners = q.partners := by
  unfold step1Player
  rcases hq : q.current_status <;> simp [hq]

theorem step1Player_pcg (q : Player) :
    (step1Player q).played_consecutive_games =
      if q.current_status = Status.sitting_out then 0 else q.played_consecutive_games := by
  unfold step1Player
  rcases hq : q.current_status <;> simp [hq]

/-! ### Claim theorems -/

/-- C2: for every call of `rotate_players` on a roster of pairwise-distinct
names with `num_courts ≥ 1` and a permuting random oracle, the returned pair
satisfies `len(courts) * 4 + len(sitting_out) = len(all_players)`. -/
theorem rotate_players_conservation {rand : Oracle} (hwf : rand.WF)
    {all_players : List String} (hr : all_players.Nodup) {num_courts : Nat}
    (_hc : 1 ≤ num_courts) (st : Store) :
    (rotate_players rand all_players num_courts st).1.length * 4 +
      (rotate_players rand all_players num_courts st).2.1.length =
      all_players.length := by
  obtain ⟨hcourts, hsit, -, AS, -, -⟩ := rotate_pipeline hwf hr num_courts st
  obtain ⟨-, -, hfwdL⟩ := rotateForwarded_spec rand hr num_courts st
  have hshlen : (rand.shuffleRot (rotateForwarded rand all_players num_courts st)).length =
      (rotateForwarded rand all_players num_courts st).length := (hwf.1 _).length_eq
  have hcons := AS.conserve
  rw [hshlen] at hcons
  rw [hcourts, hsit, List.length_append]
  omega

/-- C5: in the result of `rotate_players` on a roster of pairwise-distinct
names, no player appears in two different courts, and no player appears both in
a court and in the sitting-out list. -/
theorem rotate_players_no_double_seating {rand : Oracle} (hwf : rand.WF)
    {all_players : List String} (hr : all_players.Nodup) (num_courts : Nat) (st : Store) :
    (∀ i j (hi : i < (rotate_players rand all_players num_courts st).1.length)
        (hj : j < (rotate_players rand all_players num_courts st).1.length), i ≠ j →
        ∀ n, n ∈ (rotate_players rand all_players num_courts st).1[i] →
          n ∉ (rotate_players rand all_players num_courts st).1[j]) ∧
    (∀ court ∈ (rotate_players rand all_players num_courts st).1, ∀ n ∈ court,
      n ∉ (rotate_players rand all_players num_courts st).2.1) := by
  obtain ⟨hcourts, hsit, -, AS, hdisj, -⟩ := rotate_pipeline hwf hr num_courts st
  obtain ⟨-, hfwdM, -⟩ := rotateForwarded_spec rand hr num_courts st
  have hperm := hwf.1 (rotateForwarded rand all_players num_courts st)
  constructor
  · intro i j hi hj hij n hni hnj
    have hi' : i < (rotateAssign rand all_players num_courts st).1.length := by
      rw [← hcourts]; exact hi
    have hj' : j < (rotateAssign rand all_players num_courts st).1.length := by
      rw [← hcourts]; exact hj
    refine flatten_nodup_pairwise AS.cnodup i j hi' hj' hij n ?_ ?_
    · have hgi : (rotate_players rand all_players num_courts st).1.get ⟨i, hi⟩ =
          (rotateAssign rand all_players num_courts st).1.get ⟨i, hi'⟩ := by
        congr 1
      rw [List.get_eq_getElem, List.get_eq_getElem] at hgi
      rw [← hgi]; exact hni
    · have hgj : (rotate_players rand all_players num_courts st).1.get ⟨j, hj⟩ =
          (rotateAssign rand all_players num_courts st).1.get ⟨j, hj'⟩ := by
        congr 1
      rw [List.get_eq_getElem, List.get_eq_getElem] at hgj
      rw [← hgj]; exact hnj
  · intro court hcourt n hn hmem
    have hflat : n ∈ (rotateAssign rand all_players num_courts st).1.flatten := by
      rw [hcourts] at hcourt
      exact List.mem_flatten_of_mem hcourt hn
    rw [hsit] at hmem
    rcases List.mem_append.1 hmem with hmem | hmem
    · have hsh : n ∈ rand.shuffleRot (rotateForwarded rand all_players num_courts st) :=
        AS.cmem n hflat
      exact ((hfwdM n).1 (hperm.mem_iff.1 hsh)).2 hmem
    · exact ((AS.umem n).1 hmem).2 hflat

/-- C6: with the default court size 4 and pairwise-distinct eligible players,
every court-forming iteration that starts with at least four unassigned
candidates completes, so `assign_players_to_courts` returns exactly
`min num_courts (len(eligible_players) / 4)` courts of exactly four players
each (the abort/release branches never fire). -/
theorem assign_players_to_courts_count {rand : Oracle} (hwf : rand.WF)
    {eligible_players : List String} (he : eligible_players.Nodup)
    (num_courts : Nat) (st : Store) :
    (assign_players_to_courts rand eligible_players num_courts 4 st).1.length =
      min num_courts (eligible_players.length / 4) ∧
    ∀ court ∈ (assign_players_to_courts rand eligible_players num_courts 4 st).1,
      court.length = 4 :=
  ⟨(assign_spec rand hwf eligible_players he num_courts st).count,
   (assign_spec rand hwf eligible_players he num_courts st).csize⟩

theorem Store.modify_partners_mono {st : Store} {p : String} {f : Player → Player}
    (hf : ∀ q, q.partners ⊆ (f q).partners) (n : String) :
    (st n).partners ⊆ (st.modify p f n).partners := by
  rw [Store.modify_apply]
  split
  · exact hf _
  · exact Finset.Subset.refl _

theorem applyCourt_partners_mono (p1 p2 p3 p4 : String) (st : Store) (n : String) :
    (st n).partners ⊆ (applyCourt p1 p2 p3 p4 st n).partners := by
  unfold applyCourt
  have hfold : ∀ (s : Store),
      ((Store.foldModify (fun q => { q with current_status := Status.playing, played_consecutive_games := q.played_consecutive_games + 1 }) [p1, p2, p3, p4] s) n).partners = (s n).partners :=
    fun s => Store.foldModify_proj (fun q => q.partners)
      (fun q => { q with current_status := Status.playing, played_consecutive_games := q.played_consecutive_games + 1 })
      (fun _ => rfl) [p1, p2, p3, p4] s n
  rw [hfold]
  refine Finset.Subset.trans ?_ (Store.modify_partners_mono (fun q => Finset.subset_insert _ _) n)
  refine Finset.Subset.trans ?_ (Store.modify_partners_mono (fun q => Finset.subset_insert _ _) n)
  refine Finset.Subset.trans ?_ (Store.modify_partners_mono (fun q => Finset.subset_insert _ _) n)
  exact Store.modify_partners_mono (fun q => Finset.subset_insert _ _) n

theorem courtStep_court_store {rand : Oracle} {ce : List String} {ppc i : Nat}
    {assigned : Finset String} {st : Store} {c2 : List String} {a2 : Finset String}
    {st2 : Store} (h : courtStep rand ce ppc i assigned st = .court c2 a2 st2) :
    ∃ p1 p2 p3 p4, st2 = applyCourt p1 p2 p3 p4 st := by
  unfold courtStep at h
  split at h
  · exact StepResult.noConfusion h
  · split at h
    · exact StepResult.noConfusion h
    · split at h
      · exact StepResult.noConfusion h
      · split at h
        · exact StepResult.noConfusion h
        · split at h
          · exact StepResult.noConfusion h
          · cases h
            exact ⟨_, _, _, _, rfl⟩

theorem assignLoop_partners_mono (rand : Oracle) (ce : List String) (ppc : Nat) :
    ∀ (fuel i : Nat) (assigned : Finset String) (st : Store) (n : String),
      (st n).partners ⊆ ((assignLoop rand ce ppc i fuel assigned st).2.2 n).partners := by
  intro fuel
  induction fuel with
  | zero =>
    intro i assigned st n
    exact Finset.Subset.refl _
  | succ fuel ih =>
    intro i assigned st n
    simp only [assignLoop]
    cases hstep : courtStep rand ce ppc i assigned st with
    | stop => exact Finset.Subset.refl _
    | skip a2 => exact ih (i + 1) a2 st n
    | court c2 a2 st2 =>
      obtain ⟨p1, p2, p3, p4, rfl⟩ := courtStep_court_store hstep
      exact Finset.Subset.trans (applyCourt_partners_mono p1 p2 p3 p4 st n)
        (ih (i + 1) a2 _ n)

theorem assign_partners_mono (rand : Oracle) (elig : List String) (c ppc : Nat)
    (st : Store) (n : String) :
    (st n).partners ⊆ ((assign_players_to_courts rand elig c ppc st).2.2 n).partners := by
  have hdef : assign_players_to_courts rand elig c ppc st =
      ((assignLoop rand (rand.shuffleAssign elig) ppc 0 c ∅ st).1,
       elig.filter (fun p =>
         decide (p ∉ (assignLoop rand (rand.shuffleAssign elig) ppc 0 c ∅ st).2.1)),
       Store.foldModify sitMark
         (elig.filter (fun p =>
           decide (p ∉ (assignLoop rand (rand.shuffleAssign elig) ppc 0 c ∅ st).2.1)))
         (assignLoop rand (rand.shuffleAssign elig) ppc 0 c ∅ st).2.2) := rfl
  rw [hdef]
  dsimp only
  have h1 := Store.foldModify_proj (fun q => q.partners) sitMark (fun _ => rfl)
    (elig.filter (fun p =>
      decide (p ∉ (assignLoop rand (rand.shuffleAssign elig) ppc 0 c ∅ st).2.1)))
    (assignLoop rand (rand.shuffleAssign elig) ppc 0 c ∅ st).2.2 n
  rw [h1]
  exact assignLoop_partners_mono rand (rand.shuffleAssign elig) ppc c 0 ∅ st n

theorem absorb_partners_eq (u : List String) :
    ∀ (acc : List String × Store) (n : String),
      ((absorb u acc).2 n).partners = (acc.2 n).partners := by
  induction u with
  | nil => intro acc n; rfl
  | cons p u' ih =>
    intro acc n
    have hstep : absorb (p :: u') acc =
        if p ∈ acc.1 then absorb u' acc
        else absorb u' (acc.1 ++ [p], acc.2.modify p absorbMark) := by
      simp only [absorb, List.foldl_cons]
      split <;> rfl
    rw [hstep]
    split
    · exact ih acc n
    · rw [ih _ n]
      show ((acc.2.modify p absorbMark) n).partners = (acc.2 n).partners
      exact Store.modify_proj (fun q => q.partners) acc.2 p absorbMark (fun _ => rfl) n

/-- C9: partner sets grow monotonically: no call of `rotate_players` or
`assign_players_to_courts` ever removes an element from any player's partner
set (unconditionally, for every oracle, roster and heap). -/
theorem partners_grow_monotonically (rand : Oracle) (all_players eligible_players : List String)
    (num_courts num_courts2 : Nat) (st st2 : Store) (n : String) :
    (st n).partners ⊆ ((rotate_players rand all_players num_courts st).2.2 n).partners ∧
    (st2 n).partners ⊆
      ((assign_players_to_courts rand eligible_players num_courts2 4 st2).2.2 n).partners := by
  refine ⟨?_, assign_partners_mono rand eligible_players num_courts2 4 st2 n⟩
  have hdef : rotate_players rand all_players num_courts st =
      ((rotateAssign rand all_players num_courts st).1,
       (absorb (rotateAssign rand all_players num_courts st).2.1
         (rotateSelected rand all_players num_courts st,
          (rotateAssign rand all_players num_courts st).2.2)).1,
       Store.foldModify sitMark
         (absorb (rotateAssign rand all_players num_courts st).2.1
           (rotateSelected rand all_players num_courts st,
            (rotateAssign rand all_players num_courts st).2.2)).1
         (absorb (rotateAssign rand all_players num_courts st).2.1
           (rotateSelected rand all_players num_courts st,
            (rotateAssign rand all_players num_courts st).2.2)).2) := rfl
  rw [hdef]
  dsimp only
  rw [Store.foldModify_proj (fun q => q.partners) sitMark (fun _ => rfl) _ _ n,
    absorb_partners_eq _ _ n]
  have hup : (updateStats st all_players n).partners = (st n).partners := by
    unfold updateStats
    exact Store.foldModify_proj (fun q => q.partners) step1Player step1Player_partners _ _ n
  calc (st n).partners = (updateStats st all_players n).partners := hup.symm
    _ ⊆ _ := assign_partners_mono rand _ num_courts 4 _ n

/-- C4: partnership symmetry and self-freedom of partner sets are invariants:
they are preserved by `rotate_players`, by `assign_players_to_courts`, and by
the player-removal operation (which purges the removed name from the remaining
partner sets). -/
theorem partner_symmetry_invariant {rand : Oracle} (hwf : rand.WF) :
    (∀ (all_players : List String) (num_courts : Nat) (st : Store), all_players.Nodup →
      PartnersSym all_players st →
      PartnersSym all_players (rotate_players rand all_players num_courts st).2.2) ∧
    (∀ (eligible_players : List String) (num_courts : Nat) (st : Store),
      eligible_players.Nodup → PartnersSym eligible_players st →
      PartnersSym eligible_players
        (assign_players_to_courts rand eligible_players num_courts 4 st).2.2) ∧
    (∀ (all_players : List String) (name : String) (st : Store), all_players.Nodup →
      PartnersSym all_players st →
      PartnersSym (remove_player_logic all_players name st).1
        (remove_player_logic all_players name st).2) := by
  refine ⟨?_, ?_, ?_⟩
  · intro roster c st hr hsym
    obtain ⟨-, -, hstore, AS, -, -⟩ := rotate_pipeline hwf hr c st
    have hpe : ∀ n, ((rotate_players rand roster c st).2.2 n).partners =
        ((rotateAssign rand roster c st).2.2 n).partners := by
      intro n
      rw [hstore n]
      split
      · split <;> rfl
      · rfl
    have hup : ∀ n, (updateStats st roster n).partners = (st n).partners := fun n =>
      Store.foldModify_proj (fun q => q.partners) step1Player step1Player_partners _ _ n
    exact partnersSym_of_partners_eq hpe
      (AS.ssym roster (partnersSym_of_partners_eq hup hsym))
  · intro elig c st he hsym
    exact (assign_spec rand hwf elig he c st).ssym elig hsym
  · intro roster name st hr hsym
    unfold remove_player_logic
    split
    · rename_i hmem
      dsimp only
      have hN2 : (roster.erase name).Nodup := hr.erase name
      have hpart : ∀ n ∈ roster.erase name,
          (Store.foldModify (fun q => { q with partners := q.partners.erase name })
            (roster.erase name) st n).partners = (st n).partners.erase name := by
        intro n hn
        rw [Store.foldModify_apply _ hN2, if_pos hn]
      obtain ⟨hs, hf⟩ := hsym
      refine ⟨fun a ha b hb => ?_, fun a ha => ?_⟩
      · obtain ⟨hane, haR⟩ := (hr.mem_erase_iff).1 ha
        obtain ⟨hbne, hbR⟩ := (hr.mem_erase_iff).1 hb
        rw [hpart a ha, hpart b hb]
        simp only [Finset.mem_erase]
        rw [hs a haR b hbR]
        constructor
        · rintro ⟨-, h⟩
          exact ⟨hbne, h⟩
        · rintro ⟨-, h⟩
          exact ⟨hane, h⟩
      · obtain ⟨-, haR⟩ := (hr.mem_erase_iff).1 ha
        rw [hpart a ha]
        intro h
        exact hf a haR (Finset.mem_of_mem_erase h)
    · exact hsym

/-- C7: the core functions degrade instead of failing: on four mutually
already-partnered players the pairing engine still forms a full court
(accepting repeat partnerships), and on a roster of fewer than four players
with one court `rotate_players` forms no court and returns every player in the
sit-out list. -/
theorem core_degrades_without_failing {rand : Oracle} (hwf : rand.WF) :
    (∀ (st : Store) (eligible_players : List String), eligible_players.Nodup →
      eligible_players.length = 4 →
      (∀ a ∈ eligible_players, ∀ b ∈ eligible_players, a ≠ b → a ∈ (st b).partners) →
      (assign_players_to_courts rand eligible_players 1 4 st).1.length = 1 ∧
      (assign_players_to_courts rand eligible_players 1 4 st).2.1 = []) ∧
    (∀ (st : Store) (all_players : List String), all_players.Nodup →
      all_players.length < 4 →
      (rotate_players rand all_players 1 st).1 = [] ∧
      (rotate_players rand all_players 1 st).2.1.Perm all_players) := by
  constructor
  · intro st elig he hlen _
    have AS := assign_spec rand hwf elig he 1 st
    have hcount : (assign_players_to_courts rand elig 1 4 st).1.length = 1 := by
      rw [AS.count, hlen]
      decide
    refine ⟨hcount, ?_⟩
    have := AS.conserve
    rw [hcount, hlen] at this
    exact List.length_eq_zero.1 (by omega)
  · intro st roster hr hlen
    obtain ⟨hcourts, hsit, -, AS, -, -⟩ := rotate_pipeline hwf hr 1 st
    obtain ⟨hselN, hselM, hselL⟩ := rotateSelected_spec rand hr 1 st
    obtain ⟨-, hfwdM, hfwdL⟩ := rotateForwarded_spec rand hr 1 st
    have hperm := hwf.1 (rotateForwarded rand roster 1 st)
    have hnts : numToSitOut roster 1 = 0 := by
      unfold numToSitOut
      omega
    have hsel : rotateSelected rand roster 1 st = [] := by
      unfold rotateSelected
      rw [if_pos hnts]
    have hshlen : (rand.shuffleRot (rotateForwarded rand roster 1 st)).length =
        roster.length := by
      rw [hperm.length_eq]
      rw [hsel] at hfwdL
      simpa using hfwdL
    have hc0 : (rotateAssign rand roster 1 st).1 = [] := by
      have := AS.count
      rw [hshlen, Nat.div_eq_of_lt hlen] at this
      simp only [Nat.min_zero] at this
      exact List.length_eq_zero.1 this
    refine ⟨by rw [hcourts, hc0], ?_⟩
    rw [hsit, hsel, List.nil_append]
    have hmem : ∀ n, n ∈ (rotateAssign rand roster 1 st).2.1 ↔ n ∈ roster := by
      intro n
      rw [AS.umem n, hc0]
      simp only [List.flatten_nil, List.not_mem_nil, not_false_iff, and_true]
      rw [hperm.mem_iff, hfwdM n, hsel]
      simp
    refine perm_of_nodup_sub_length AS.unodup hr (fun x hx => (hmem x).1 hx) ?_
    have hcons := AS.conserve
    rw [hshlen, hc0] at hcons
    simp only [List.length_nil, Nat.mul_zero, Nat.add_zero] at hcons
    omega

/-- C3 (amended): the players selected by the sit-out ranking are marked
sitting out with `played_consecutive_games` reset to 0 and are excluded from
the candidates forwarded to the pairing engine, but the selection itself does
not increment `games_sat_out`: after the call the counter equals its value
after the entry bookkeeping (one more than at entry only when the player
entered with status sitting-out). -/
theorem rotate_selected_marking {rand : Oracle} (hwf : rand.WF)
    {all_players : List String} (hr : all_players.Nodup) (num_courts : Nat) (st : Store) :
    ∀ n ∈ rotateSelected rand all_players num_courts st,
      ((rotate_players rand all_players num_courts st).2.2 n).current_status =
        Status.sitting_out ∧
      ((rotate_players rand all_players num_courts st).2.2 n).played_consecutive_games = 0 ∧
      ((rotate_players rand all_players num_courts st).2.2 n).games_sat_out =
        (st n).games_sat_out +
          (if (st n).current_status = Status.sitting_out then 1 else 0) ∧
      n ∉ rotateForwarded rand all_players num_courts st := by
  intro n hn
  obtain ⟨-, -, hstore, AS, hdisj, -⟩ := rotate_pipeline hwf hr num_courts st
  obtain ⟨-, hselM, -⟩ := rotateSelected_spec rand hr num_courts st
  obtain ⟨-, hfwdM, -⟩ := rotateForwarded_spec rand hr num_courts st
  have hperm := hwf.1 (rotateForwarded rand all_players num_courts st)
  have hnfwd : n ∉ rotateForwarded rand all_players num_courts st := by
    intro h
    exact ((hfwdM n).1 h).2 hn
  have hnu : n ∉ (rotateAssign rand all_players num_courts st).2.1 := fun h => hdisj n h hn
  have hnflat : n ∉ (rotateAssign rand all_players num_courts st).1.flatten := by
    intro h
    exact hnfwd (hperm.mem_iff.1 (AS.cmem n h))
  have hsouter := AS.souter n hnflat hnu
  have hmemS : n ∈ rotateSelected rand all_players num_courts st ++
      (rotateAssign rand all_players num_courts st).2.1 := List.mem_append_left _ hn
  have hfinal := hstore n
  rw [if_pos hmemS, if_neg hnu, hsouter, updateStats_apply hr st n,
    if_pos (hselM n hn)] at hfinal
  rw [hfinal]
  exact ⟨rfl, rfl, step1Player_sat (st n), hnfwd⟩

/-- C3 (counterexample to the original claim): with five fresh players and one
court, player A is selected by the sit-out ranking, yet its `games_sat_out`
is not incremented by the call. -/
theorem c3_counterexample :
    "A" ∈ rotateSelected idRand ["A", "B", "C", "D", "E"] 1 freshStore ∧
    ((rotate_players idRand ["A", "B", "C", "D", "E"] 1 freshStore).2.2 "A").games_sat_out ≠
      (freshStore "A").games_sat_out + 1 := by
  decide

/-- C10 (amended): `rotate_players` with `num_courts = 0` returns normally
with no courts and every roster player sitting out with
`played_consecutive_games` reset to 0; `games_sat_out` is unchanged except for
the entry bookkeeping, which adds one exactly when the player entered the call
with status sitting-out. -/
theorem rotate_zero_courts {rand : Oracle} (hwf : rand.WF)
    {all_players : List String} (hr : all_players.Nodup) (st : Store) :
    (rotate_players rand all_players 0 st).1 = [] ∧
    (rotate_players rand all_players 0 st).2.1.Perm all_players ∧
    ∀ n ∈ all_players,
      ((rotate_players rand all_players 0 st).2.2 n).current_status = Status.sitting_out ∧
      ((rotate_players rand all_players 0 st).2.2 n).played_consecutive_games = 0 ∧
      ((rotate_players rand all_players 0 st).2.2 n).games_sat_out =
        (st n).games_sat_out +
          (if (st n).current_status = Status.sitting_out then 1 else 0) := by
  obtain ⟨hcourts, hsit, hstore, AS, hdisj, -⟩ := rotate_pipeline hwf hr 0 st
  obtain ⟨hselN, hselM, hselL⟩ := rotateSelected_spec rand hr 0 st
  obtain ⟨-, hfwdM, hfwdL⟩ := rotateForwarded_spec rand hr 0 st
  have hperm := hwf.1 (rotateForwarded rand all_players 0 st)
  have hnts : numToSitOut all_players 0 = all_players.length := by
    unfold numToSitOut
    omega
  have hselperm : (rotateSelected rand all_players 0 st).Perm all_players := by
    refine perm_of_nodup_sub_length hselN hr hselM ?_
    rw [hselL, hnts]
    simp
  have hfwdnil : rotateForwarded rand all_players 0 st = [] := by
    refine List.eq_nil_iff_forall_not_mem.2 (fun n h => ?_)
    obtain ⟨hnR, hnsel⟩ := (hfwdM n).1 h
    exact hnsel (hselperm.mem_iff.2 hnR)
  have hshnil : rand.shuffleRot (rotateForwarded rand all_players 0 st) = [] := by
    rw [hfwdnil] at hperm ⊢
    exact hperm.eq_nil
  have hc0 : (rotateAssign rand all_players 0 st).1 = [] := by
    have := AS.count
    simp only [Nat.zero_min] at this
    exact List.length_eq_zero.1 this
  have hu0 : (rotateAssign rand all_players 0 st).2.1 = [] := by
    refine List.eq_nil_iff_forall_not_mem.2 (fun n h => ?_)
    have := ((AS.umem n).1 h).1
    rw [hshnil] at this
    exact List.not_mem_nil n this
  refine ⟨by rw [hcourts, hc0], ?_, ?_⟩
  · rw [hsit, hu0, List.append_nil]
    exact hselperm
  · intro n hnR
    have hnsel : n ∈ rotateSelected rand all_players 0 st := hselperm.mem_iff.2 hnR
    have hnu : n ∉ (rotateAssign rand all_players 0 st).2.1 := by
      rw [hu0]
      exact List.not_mem_nil n
    have hnflat : n ∉ (rotateAssign rand all_players 0 st).1.flatten := by
      rw [hc0]
      simp
    have hsouter := AS.souter n hnflat hnu
    have hmemS : n ∈ rotateSelected rand all_players 0 st ++
        (rotateAssign rand all_players 0 st).2.1 := List.mem_append_left _ hnsel
    have hfinal := hstore n
    rw [if_pos hmemS, if_neg hnu, hsouter, updateStats_apply hr st n, if_pos hnR] at hfinal
    rw [hfinal]
    exact ⟨rfl, rfl, step1Player_sat (st n)⟩

/-- C10 (counterexample to the original claim): a roster player that enters
the `num_courts = 0` call with status sitting-out has its `games_sat_out`
changed by the call (the entry bookkeeping increments it). -/
theorem c10_counterexample :
    ((rotate_players idRand ["A"] 0 sitOutStore).2.2 "A").games_sat_out ≠
      (sitOutStore "A").games_sat_out := by
  decide

/-- C1 (evidence of the divergence): on a fresh roster of seven players with
two courts and the trivial oracle, player f is considered in all three rounds
and sits out exactly in rounds 1 and 3 (it is seated in round 2), yet after
three calls its `games_played + games_sat_out` is 4: the absorbed sit-out
round of a player is counted twice (once at absorption, once in the next
call's entry bookkeeping), not exactly once as claimed. -/
theorem absorbed_round_counted_twice :
    sittersAt (fun _ => idRand) ["a", "b", "c", "d", "e", "f", "g"] 2 freshStore 0 =
      ["e", "f", "g"] ∧
    sittersAt (fun _ => idRand) ["a", "b", "c", "d", "e", "f", "g"] 2 freshStore 1 =
      ["b", "c", "d"] ∧
    sittersAt (fun _ => idRand) ["a", "b", "c", "d", "e", "f", "g"] 2 freshStore 2 =
      ["a", "f", "g"] ∧
    ((rotateSeq (fun _ => idRand) ["a", "b", "c", "d", "e", "f", "g"] 2 freshStore 3)
        "f").games_played +
      ((rotateSeq (fun _ => idRand) ["a", "b", "c", "d", "e", "f", "g"] 2 freshStore 3)
        "f").games_sat_out = 4 := by
  decide

/-! ### The five-players-one-court rotation -/

theorem lex4_trans {x y z : Int × Int × Nat × Nat} (h1 : lex4 x y) (h2 : lex4 y z) :
    lex4 x z := by
  unfold lex4 at *
  simp only [Bool.or_eq_true, Bool.and_eq_true, decide_eq_true_eq] at *
  omega

theorem lex4_total (x y : Int × Int × Nat × Nat) : lex4 x y || lex4 y x := by
  unfold lex4
  simp only [Bool.or_eq_true, Bool.and_eq_true, decide_eq_true_eq]
  omega

theorem lex4_le_first {x y : Int × Int × Nat × Nat} (h : lex4 x y) : x.1 ≤ y.1 := by
  unfold lex4 at h
  simp only [Bool.or_eq_true, Bool.and_eq_true, decide_eq_true_eq] at h
  omega

theorem lastSat_le (R : Nat → Oracle) (roster : List String) (num_courts : Nat)
    (st : Store) : ∀ k n, lastSat R roster num_courts st k n ≤ k := by
  intro k
  induction k with
  | zero => intro n; exact Nat.le_refl 0
  | succ k ih =>
    intro n
    unfold lastSat
    split
    · exact Nat.le_refl _
    · exact Nat.le_succ_of_le (ih n)

theorem lastSat_succ_le (R : Nat → Oracle) (roster : List String) (num_courts : Nat)
    (st : Store) (k : Nat) (n : String) :
    lastSat R roster num_courts st k n ≤ lastSat R roster num_courts st (k + 1) n := by
  conv_rhs => unfold lastSat
  split
  · exact (lastSat_le R roster num_courts st k n).trans (Nat.le_succ k)
  · exact Nat.le_refl _

theorem lastSat_mono (R : Nat → Oracle) (roster : List String) (num_courts : Nat)
    (st : Store) {k1 k2 : Nat} (h : k1 ≤ k2) (n : String) :
    lastSat R roster num_courts st k1 n ≤ lastSat R roster num_courts st k2 n := by
  induction h with
  | refl => exact Nat.le_refl _
  | step h2 ih => exact ih.trans (lastSat_succ_le R roster num_courts st _ n)

/-- One round with five distinct players and one court: exactly one player
sits out, it maximises the entry consecutive-games count, it ends sitting out
with the count reset, and the other four end playing with their counts
incremented. -/
theorem rotate_five_step {rand : Oracle} (hwf : rand.WF) {roster : List String}
    (hr : roster.Nodup) (h5 : roster.length = 5) (st : Store)
    (hzero : ∀ n ∈ roster, (st n).current_status = Status.sitting_out →
      (st n).played_consecutive_games = 0) :
    ∃ τ, (rotate_players rand roster 1 st).2.1 = [τ] ∧ τ ∈ roster ∧
      (∀ m ∈ roster, (st m).played_consecutive_games ≤ (st τ).played_consecutive_games) ∧
      ((rotate_players rand roster 1 st).2.2 τ).played_consecutive_games = 0 ∧
      ((rotate_players rand roster 1 st).2.2 τ).current_status = Status.sitting_out ∧
      ∀ m ∈ roster, m ≠ τ →
        ((rotate_players rand roster 1 st).2.2 m).played_consecutive_games =
          (st m).played_consecutive_games + 1 ∧
        ((rotate_players rand roster 1 st).2.2 m).current_status = Status.playing := by
  obtain ⟨-, hsit, hstore, AS, hdisj, -⟩ := rotate_pipeline hwf hr 1 st
  obtain ⟨-, hfwdM, hfwdL⟩ := rotateForwarded_spec rand hr 1 st
  have hperm := hwf.1 (rotateForwarded rand roster 1 st)
  -- after the entry bookkeeping, the consecutive-games counts are unchanged
  have hpcg1 : ∀ n ∈ roster, (updateStats st roster n).played_consecutive_games =
      (st n).played_consecutive_games := by
    intro n hn
    rw [updateStats_apply hr st n, if_pos hn, step1Player_pcg]
    split
    · rename_i hss
      exact (hzero n hn hss).symm
    · rfl
  -- the sit-out selection is the head of the ranking over the whole roster
  have hnts : numToSitOut roster 1 = 1 := by
    unfold numToSitOut
    omega
  have hros : roster ≠ [] := by
    intro h0
    rw [h0] at h5
    simp at h5
  obtain ⟨τ, rest, hsort, hτr⟩ :=
    pySort_exists_cons (sitLe (updateStats st roster) rand.sitTb) roster hros
  have hselval : rotateSelected rand roster 1 st = [τ] := by
    unfold rotateSelected
    rw [if_neg (by rw [hnts]; exact Nat.one_ne_zero), sitOutCandidates_eq hr st, hnts, hsort]
    rfl
  -- the head of the ranking has maximal consecutive-games count
  have htrans : ∀ a b c : String, sitLe (updateStats st roster) rand.sitTb a b →
      sitLe (updateStats st roster) rand.sitTb b c →
      sitLe (updateStats st roster) rand.sitTb a c := by
    intro a b c h1 h2
    exact lex4_trans h1 h2
  have htotal : ∀ a b : String, sitLe (updateStats st roster) rand.sitTb a b ||
      sitLe (updateStats st roster) rand.sitTb b a := by
    intro a b
    exact lex4_total _ _
  have hmax : ∀ m ∈ roster, (st m).played_consecutive_games ≤
      (st τ).played_consecutive_games := by
    intro m hm
    have hle := pySort_head_le htrans htotal hsort m hm
    have hfirst := lex4_le_first hle
    have h1 := hpcg1 m hm
    have h2 := hpcg1 τ hτr
    simp only [sitKey] at hfirst
    omega
  -- the pairing engine seats the four forwarded players and leaves nobody over
  have hfwd4 : (rotateForwarded rand roster 1 st).length = 4 := by
    rw [hselval] at hfwdL
    simp only [List.length_singleton] at hfwdL
    omega
  have hsh4 : (rand.shuffleRot (rotateForwarded rand roster 1 st)).length = 4 := by
    rw [hperm.length_eq, hfwd4]
  have hflat4 : (rotateAssign rand roster 1 st).1.flatten.length = 4 := by
    rw [length_flatten_of_all4 AS.csize, AS.count, hsh4]
    decide
  have hfwdnd : (rotateForwarded rand roster 1 st).Nodup :=
    (rotateForwarded_spec rand hr 1 st).1
  have hflatperm : (rotateAssign rand roster 1 st).1.flatten.Perm
      (rotateForwarded rand roster 1 st) :=
    perm_of_nodup_sub_length AS.cnodup hfwdnd
      (fun x hx => hperm.mem_iff.1 (AS.cmem x hx)) (by omega)
  have hu0 : (rotateAssign rand roster 1 st).2.1 = [] := by
    refine List.eq_nil_iff_forall_not_mem.2 (fun n h => ?_)
    obtain ⟨hsh, hnf⟩ := (AS.umem n).1 h
    exact hnf (hflatperm.mem_iff.2 (hperm.mem_iff.1 hsh))
  have hsitval : (rotate_players rand roster 1 st).2.1 = [τ] := by
    rw [hsit, hselval, hu0, List.append_nil]
  refine ⟨τ, hsitval, hτr, hmax, ?_, ?_, ?_⟩
  -- the selected player ends sitting out with the count reset
  case _ =>
    have hτnf : τ ∉ rotateForwarded rand roster 1 st := by
      intro h
      exact ((hfwdM τ).1 h).2 (by rw [hselval]; exact List.mem_singleton.2 rfl)
    have hτflat : τ ∉ (rotateAssign rand roster 1 st).1.flatten := fun h =>
      hτnf (hflatperm.mem_iff.1 h)
    have hτu : τ ∉ (rotateAssign rand roster 1 st).2.1 := by
      rw [hu0]
      exact List.not_mem_nil τ
    have hfinal := hstore τ
    rw [if_pos (by rw [hselval, hu0]; exact List.mem_append_left _ (List.mem_singleton.2 rfl)),
      if_neg hτu, AS.souter τ hτflat hτu] at hfinal
    rw [hfinal]
    rfl
  case _ =>
    have hτnf : τ ∉ rotateForwarded rand roster 1 st := by
      intro h
      exact ((hfwdM τ).1 h).2 (by rw [hselval]; exact List.mem_singleton.2 rfl)
    have hτflat : τ ∉ (rotateAssign rand roster 1 st).1.flatten := fun h =>
      hτnf (hflatperm.mem_iff.1 h)
    have hτu : τ ∉ (rotateAssign rand roster 1 st).2.1 := by
      rw [hu0]
      exact List.not_mem_nil τ
    have hfinal := hstore τ
    rw [if_pos (by rw [hselval, hu0]; exact List.mem_append_left _ (List.mem_singleton.2 rfl)),
      if_neg hτu, AS.souter τ hτflat hτu] at hfinal
    rw [hfinal]
    rfl
  -- every other roster player is seated
  case _ =>
    intro m hm hmτ
    have hmf : m ∈ rotateForwarded rand roster 1 st := by
      rw [hfwdM m, hselval]
      exact ⟨hm, by simp [hmτ]⟩
    have hmflat : m ∈ (rotateAssign rand roster 1 st).1.flatten := hflatperm.mem_iff.2 hmf
    have hmS : m ∉ rotateSelected rand roster 1 st ++ (rotateAssign rand roster 1 st).2.1 := by
      rw [hselval, hu0]
      simp [hmτ]
    have hfinal := hstore m
    rw [if_neg hmS] at hfinal
    rw [hfinal]
    obtain ⟨hstat, hpcg, -⟩ := AS.splayer m hmflat
    rw [hstat, hpcg, hpcg1 m hm]
    exact ⟨rfl, rfl⟩

/-- The invariant carried across rounds for five players and one court:
consecutive-games counts measure the time since the last sit-out, positive
last-sit-out rounds identify players uniquely, and a sitting-out player's
count is zero. -/
theorem five_invariant {R : Nat → Oracle} (hwf : ∀ k, (R k).WF)
    {roster : List String} (hr : roster.Nodup) (h5 : roster.length = 5) (k : Nat) :
    (∀ n ∈ roster, (rotateSeq R roster 1 freshStore k n).played_consecutive_games =
      k - lastSat R roster 1 freshStore k n) ∧
    (∀ n m, n ∈ roster → m ∈ roster →
      lastSat R roster 1 freshStore k n = lastSat R roster 1 freshStore k m →
      0 < lastSat R roster 1 freshStore k n → n = m) ∧
    (∀ n ∈ roster, (rotateSeq R roster 1 freshStore k n).current_status =
      Status.sitting_out →
      (rotateSeq R roster 1 freshStore k n).played_consecutive_games = 0) := by
  induction k with
  | zero =>
    exact ⟨fun n _ => rfl, fun n m _ _ _ h0 => absurd h0 (Nat.lt_irrefl 0),
      fun n _ _ => rfl⟩
  | succ k ih =>
    obtain ⟨ha, hc, hz⟩ := ih
    obtain ⟨τ, hτsit, hτr, hτmax, hτpcg, hτst, hothers⟩ :=
      rotate_five_step (hwf k) hr h5 (rotateSeq R roster 1 freshStore k) hz
    have hSsucc : rotateSeq R roster 1 freshStore (k + 1) =
        (rotate_players (R k) roster 1 (rotateSeq R roster 1 freshStore k)).2.2 := rfl
    have hsit : sittersAt R roster 1 freshStore k = [τ] := hτsit
    have hlsucc : ∀ n, lastSat R roster 1 freshStore (k + 1) n =
        if n = τ then k + 1 else lastSat R roster 1 freshStore k n := by
      intro n
      conv_lhs => unfold lastSat
      rw [hsit]
      simp [List.mem_singleton]
    refine ⟨?_, ?_, ?_⟩
    · intro n hn
      rw [hSsucc, hlsucc n]
      by_cases hnτ : n = τ
      · subst hnτ
        rw [if_pos rfl, hτpcg]
        omega
      · rw [if_neg hnτ]
        obtain ⟨hp, -⟩ := hothers n hn hnτ
        rw [hp, ha n hn]
        have := lastSat_le R roster 1 freshStore k n
        omega
    · intro n m hn hm heq hpos
      rw [hlsucc n, hlsucc m] at heq
      rw [hlsucc n] at hpos
      by_cases hnτ : n = τ <;> by_cases hmτ : m = τ
      · rw [hnτ, hmτ]
      · rw [if_pos hnτ, if_neg hmτ] at heq
        have := lastSat_le R roster 1 freshStore k m
        exfalso
        omega
      · rw [if_neg hnτ, if_pos hmτ] at heq
        have := lastSat_le R roster 1 freshStore k n
        exfalso
        omega
      · rw [if_neg hnτ, if_neg hmτ] at heq
        rw [if_neg hnτ] at hpos
        exact hc n m hn hm heq hpos
    · intro n hn hstatus
      rw [hSsucc] at hstatus ⊢
      by_cases hnτ : n = τ
      · subst hnτ
        exact hτpcg
      · obtain ⟨-, hs⟩ := hothers n hn hnτ
        rw [hs] at hstatus
        exact absurd hstatus (by decide)

/-- With five distinct players and one court, every round sits out exactly one
player, a roster member whose last sit-out lies furthest in the past. -/
theorem five_sitter {R : Nat → Oracle} (hwf : ∀ k, (R k).WF)
    {roster : List String} (hr : roster.Nodup) (h5 : roster.length = 5) (k : Nat) :
    ∃ τ, sittersAt R roster 1 freshStore k = [τ] ∧ τ ∈ roster ∧
      ∀ m ∈ roster, lastSat R roster 1 freshStore k τ ≤
        lastSat R roster 1 freshStore k m := by
  obtain ⟨ha, -, hz⟩ := five_invariant hwf hr h5 k
  obtain ⟨τ, hτsit, hτr, hτmax, -⟩ :=
    rotate_five_step (hwf k) hr h5 (rotateSeq R roster 1 freshStore k) hz
  have hτsit' : sittersAt R roster 1 freshStore k = [τ] := hτsit
  refine ⟨τ, hτsit', hτr, fun m hm => ?_⟩
  have h1 := ha τ hτr
  have h2 := ha m hm
  have h3 := hτmax m hm
  have h4 := lastSat_le R roster 1 freshStore k τ
  have h6 := lastSat_le R roster 1 freshStore k m
  omega

/-- C8: with 5 players of pairwise-distinct names and 1 court, starting from a
fresh roster, every call of `rotate_players` produces exactly one sitting-out
player drawn from the roster, and within any window of 5 consecutive calls no
player sits out twice — hence, the sit-out lists being roster singletons, each
of the 5 players sits out exactly once per window — for every sequence of
well-formed random draws. -/
theorem five_players_fair_rotation {R : Nat → Oracle} (hwf : ∀ k, (R k).WF)
    {roster : List String} (hr : roster.Nodup) (h5 : roster.length = 5) :
    (∀ k, (sittersAt R roster 1 freshStore k).length = 1 ∧
      ∀ n ∈ sittersAt R roster 1 freshStore k, n ∈ roster) ∧
    ∀ j k, j < k → k < j + 5 →
      sittersAt R roster 1 freshStore j ≠ sittersAt R roster 1 freshStore k := by
  constructor
  · intro k
    obtain ⟨τ, hτ, hτr, -⟩ := five_sitter hwf hr h5 k
    rw [hτ]
    exact ⟨rfl, fun n hn => (List.mem_singleton.1 hn) ▸ hτr⟩
  · intro j k hjk hk5 hEq
    obtain ⟨τ, hτj, hτrj, -⟩ := five_sitter hwf hr h5 j
    obtain ⟨σ, hσk, hσr, hσmin⟩ := five_sitter hwf hr h5 k
    have hτσ : τ = σ := by
      rw [hτj, hσk] at hEq
      simpa using hEq
    subst hτσ
    have hlsj : lastSat R roster 1 freshStore (j + 1) τ = j + 1 := by
      conv_lhs => unfold lastSat
      rw [if_pos (by rw [hτj]; exact List.mem_singleton.2 rfl)]
    have hmono : j + 1 ≤ lastSat R roster 1 freshStore k τ := by
      calc j + 1 = lastSat R roster 1 freshStore (j + 1) τ := hlsj.symm
        _ ≤ lastSat R roster 1 freshStore k τ :=
          lastSat_mono R roster 1 freshStore hjk τ
    obtain ⟨-, hinj, -⟩ := five_invariant hwf hr h5 k
    have hin : ∀ m ∈ roster,
        lastSat R roster 1 freshStore k m ∈ Finset.Icc (j + 1) k := by
      intro m hm
      rw [Finset.mem_Icc]
      exact ⟨hmono.trans (hσmin m hm), lastSat_le R roster 1 freshStore k m⟩
    have hcard : roster.toFinset.card ≤ (Finset.Icc (j + 1) k).card :=
      Finset.card_le_card_of_injOn
      (fun m => lastSat R roster 1 freshStore k m)
      (fun m hm => hin m (List.mem_toFinset.1 hm))
      (fun a haF b hbF hab =>
        hinj a b (List.mem_toFinset.1 haF) (List.mem_toFinset.1 hbF) hab
          (lt_of_lt_of_le (Nat.succ_pos j)
            (hmono.trans (hσmin a (List.mem_toFinset.1 haF)))))
    rw [List.card_toFinset, hr.dedup, h5, Nat.card_Icc] at hcard
    omega

/-! ### Witnesses -/

/-- Witness for C2 at five fresh players, one court and the trivial oracle. -/
theorem rotate_players_conservation_witness :
    idRand.WF ∧ (["A", "B", "C", "D", "E"] : List String).Nodup ∧ 1 ≤ 1 ∧
    (rotate_players idRand ["A", "B", "C", "D", "E"] 1 freshStore).1.length * 4 +
      (rotate_players idRand ["A", "B", "C", "D", "E"] 1 freshStore).2.1.length =
      (["A", "B", "C", "D", "E"] : List String).length :=
  ⟨idRand_wf, by decide, by decide,
   rotate_players_conservation idRand_wf (by decide) (by decide) freshStore⟩

/-- Witness for C5 at five fresh players, one court and the trivial oracle. -/
theorem rotate_players_no_double_seating_witness :
    idRand.WF ∧ (["A", "B", "C", "D", "E"] : List String).Nodup ∧
    ((∀ i j (hi : i < (rotate_players idRand ["A", "B", "C", "D", "E"] 1
        freshStore).1.length)
        (hj : j < (rotate_players idRand ["A", "B", "C", "D", "E"] 1
          freshStore).1.length), i ≠ j →
        ∀ n, n ∈ (rotate_players idRand ["A", "B", "C", "D", "E"] 1 freshStore).1[i] →
          n ∉ (rotate_players idRand ["A", "B", "C", "D", "E"] 1 freshStore).1[j]) ∧
     ∀ court ∈ (rotate_players idRand ["A", "B", "C", "D", "E"] 1 freshStore).1,
       ∀ n ∈ court,
         n ∉ (rotate_players idRand ["A", "B", "C", "D", "E"] 1 freshStore).2.1) :=
  ⟨idRand_wf, by decide,
   rotate_players_no_double_seating idRand_wf (by decide) 1 freshStore⟩

/-- Witness for C6 at four fresh players, one court and the trivial oracle. -/
theorem assign_players_to_courts_count_witness :
    idRand.WF ∧ (["A", "B", "C", "D"] : List String).Nodup ∧
    ((assign_players_to_courts idRand ["A", "B", "C", "D"] 1 4 freshStore).1.length =
      min 1 ((["A", "B", "C", "D"] : List String).length / 4) ∧
     ∀ court ∈ (assign_players_to_courts idRand ["A", "B", "C", "D"] 1 4 freshStore).1,
       court.length = 4) :=
  ⟨idRand_wf, by decide,
   assign_players_to_courts_count idRand_wf (by decide) 1 freshStore⟩

/-- Witness for C4 at five fresh players, one court and the trivial oracle. -/
theorem partner_symmetry_invariant_witness :
    idRand.WF ∧ (["A", "B", "C", "D", "E"] : List String).Nodup ∧
    PartnersSym ["A", "B", "C", "D", "E"] freshStore ∧
    PartnersSym ["A", "B", "C", "D", "E"]
      (rotate_players idRand ["A", "B", "C", "D", "E"] 1 freshStore).2.2 :=
  ⟨idRand_wf, by decide, by unfold PartnersSym; decide,
   (partner_symmetry_invariant idRand_wf).1 ["A", "B", "C", "D", "E"] 1 freshStore
     (by decide) (by unfold PartnersSym; decide)⟩

/-- Witness for C7 at three fresh players and one court with the trivial
oracle. -/
theorem core_degrades_without_failing_witness :
    idRand.WF ∧ (["X", "Y", "Z"] : List String).Nodup ∧
    (["X", "Y", "Z"] : List String).length < 4 ∧
    (rotate_players idRand ["X", "Y", "Z"] 1 freshStore).1 = [] ∧
    (rotate_players idRand ["X", "Y", "Z"] 1 freshStore).2.1.Perm ["X", "Y", "Z"] :=
  ⟨idRand_wf, by decide, by decide,
   (core_degrades_without_failing idRand_wf).2 freshStore ["X", "Y", "Z"]
     (by decide) (by decide)⟩

/-- Witness for the amended C3 at five fresh players, one court and the
trivial oracle: player A is selected and carries the stated marking. -/
theorem rotate_selected_marking_witness :
    idRand.WF ∧ (["A", "B", "C", "D", "E"] : List String).Nodup ∧
    "A" ∈ rotateSelected idRand ["A", "B", "C", "D", "E"] 1 freshStore ∧
    (((rotate_players idRand ["A", "B", "C", "D", "E"] 1 freshStore).2.2
        "A").current_status = Status.sitting_out ∧
     ((rotate_players idRand ["A", "B", "C", "D", "E"] 1 freshStore).2.2
        "A").played_consecutive_games = 0 ∧
     ((rotate_players idRand ["A", "B", "C", "D", "E"] 1 freshStore).2.2
        "A").games_sat_out = (freshStore "A").games_sat_out +
          (if (freshStore "A").current_status = Status.sitting_out then 1 else 0) ∧
     "A" ∉ rotateForwarded idRand ["A", "B", "C", "D", "E"] 1 freshStore) :=
  ⟨idRand_wf, by decide, by decide,
   rotate_selected_marking idRand_wf (by decide) 1 freshStore "A" (by decide)⟩

/-- Witness for the amended C10 at a single player entering with sitting-out
status and the trivial oracle. -/
theorem rotate_zero_courts_witness :
    idRand.WF ∧ (["A"] : List String).Nodup ∧
    ((rotate_players idRand ["A"] 0 sitOutStore).1 = [] ∧
     (rotate_players idRand ["A"] 0 sitOutStore).2.1.Perm ["A"] ∧
     ∀ n ∈ (["A"] : List String),
       ((rotate_players idRand ["A"] 0 sitOutStore).2.2 n).current_status =
         Status.sitting_out ∧
       ((rotate_players idRand ["A"] 0 sitOutStore).2.2 n).played_consecutive_games = 0 ∧
       ((rotate_players idRand ["A"] 0 sitOutStore).2.2 n).games_sat_out =
         (sitOutStore n).games_sat_out +
           (if (sitOutStore n).current_status = Status.sitting_out then 1 else 0)) :=
  ⟨idRand_wf, by decide, rotate_zero_courts idRand_wf (by decide) sitOutStore⟩

/-- Witness for C8 at five fresh players and the constant trivial oracle
stream. -/
theorem five_players_fair_rotation_witness :
    (∀ k : Nat, ((fun _ : Nat => idRand) k).WF) ∧
    (["A", "B", "C", "D", "E"] : List String).Nodup ∧
    ((∀ k, (sittersAt (fun _ : Nat => idRand) ["A", "B", "C", "D", "E"] 1
        freshStore k).length = 1 ∧
      ∀ n ∈ sittersAt (fun _ : Nat => idRand) ["A", "B", "C", "D", "E"] 1
        freshStore k, n ∈ (["A", "B", "C", "D", "E"] : List String)) ∧
     ∀ j k, j < k → k < j + 5 →
       sittersAt (fun _ : Nat => idRand) ["A", "B", "C", "D", "E"] 1 freshStore j ≠
         sittersAt (fun _ : Nat => idRand) ["A", "B", "C", "D", "E"] 1 freshStore k) :=
  ⟨fun _ => idRand_wf, by decide,
   five_players_fair_rotation (fun _ => idRand_wf) (by decide) (by decide)⟩
